import Mathlib

/-!
Verification development for the kache-affiliate analysis pipeline.

The repository's analysis pipeline (Trend Engine, Competitor Engine,
Strategy Generator) is shallowly embedded below.  JavaScript objects
holding derived state become Lean structures; the JS object maps keyed
by strings become insertion-ordered association lists; `JSON.stringify`
of a result payload is modelled by an explicit serializer over a small
JSON value type; JS numbers are modelled by `ℚ` (counters by `ℕ`).
Wall-clock timestamps (`new Date().toISOString()`) are passed in as an
explicit `now : String` argument, and the random factor used by the
growth heuristic is an explicit `rand : String → ℚ` argument.  The
non-deterministic fresh ids built from `Date.now()` and `Math.random()`
are modelled by a fresh counter threaded through the engine state.
-/

namespace KacheAffiliate

/-! ## Association lists (JS object maps, insertion-ordered) -/

section AssocOps

variable {κ : Type} {α : Type} [DecidableEq κ]

/-- Lookup in an insertion-ordered association list (JS `obj[k]`). -/
def alookup (k : κ) : List (κ × α) → Option α
  | [] => none
  | (k', v) :: t => if k' = k then some v else alookup k t

/-- Assignment `obj[k] = v`: replaces in place if the key exists,
otherwise appends (JS objects keep insertion order). -/
def aset (k : κ) (v : α) : List (κ × α) → List (κ × α)
  | [] => [(k, v)]
  | (k', v') :: t => if k' = k then (k, v) :: t else (k', v') :: aset k v t

/-- Deletion `delete obj[k]`. -/
def adel (k : κ) : List (κ × α) → List (κ × α)
  | [] => []
  | (k', v') :: t => if k' = k then t else (k', v') :: adel k t

end AssocOps

/-! ## Text utilities

The engines lower-case text, test substring containment
(`String.prototype.includes`), and tokenize into maximal runs of
word characters (`\w`, i.e. alphanumerics and underscore) — the
combined effect of `.replace(/[^\w\s]/g, ' ').split(/\s+/)` and of
whole-word (`\b`-delimited) regex matching. -/

/-- ASCII word character (`\w` in a JS regex). -/
def isWordChar (c : Char) : Bool := c.isAlphanum || c = '_'

/-- JS `String.prototype.toLowerCase` restricted to ASCII. -/
def lowerStr (s : String) : String := String.mk (s.data.map Char.toLower)

/-- `needle.isPrefixOf hay || contained in the tail` — JS
`hay.includes(needle)` over character lists. -/
def containsSub (needle : List Char) : List Char → Bool
  | [] => needle.isEmpty
  | c :: t => needle.isPrefixOf (c :: t) || containsSub needle t

/-- JS `hay.includes(needle)` on strings. -/
def strIncludes (hay needle : String) : Bool :=
  containsSub needle.data hay.data

/-- Split a character list into maximal runs of word characters.
`acc` is the (reversed) current run. -/
def tokensAux : List Char → List Char → List (List Char)
  | acc, [] => if acc.isEmpty then [] else [acc.reverse]
  | acc, c :: t =>
    if isWordChar c then tokensAux (c :: acc) t
    else if acc.isEmpty then tokensAux [] t
    else acc.reverse :: tokensAux [] t

/-- Tokens (maximal `\w+` runs) of a string. -/
def tokens (s : String) : List (List Char) := tokensAux [] s.data

/-- Number of whole-word occurrences of `w` in `text` — the length of
`text.match(new RegExp('\\b' + w + '\\b', 'gi'))` for a word `w`
consisting solely of word characters, applied to lower-cased text. -/
def wordCount (w : String) (text : String) : Nat :=
  (tokens text).count w.data

/-! ## Rounding

`Math.round(x * 100) / 100` is `⌊100 x + 1/2⌋ / 100` (JS `Math.round`
rounds half toward +∞); `parseFloat(x.toFixed(2))` rounds half away
from zero. -/

/-- `Math.round(x * 100) / 100`. -/
def jsRound2 (x : ℚ) : ℚ := (Int.floor (x * 100 + 1/2) : ℚ) / 100

/-- `parseFloat(x.toFixed(2))`. -/
def toFixed2 (x : ℚ) : ℚ :=
  if 0 ≤ x then (Int.floor (x * 100 + 1/2) : ℚ) / 100
  else -((Int.floor (-x * 100 + 1/2) : ℚ) / 100)

/-! ## JSON values and `JSON.stringify`

Result payloads are loosely-typed JSON values; the engines match
keywords against `JSON.stringify(results)`.  String values in this
development contain no characters needing JSON escaping. -/

mutual
inductive Json : Type
  | jstr (s : String)
  | jnum (q : ℚ)
  | jarr (items : JList)
  | jobj (fields : JFields)
inductive JList : Type
  | nil
  | cons (hd : Json) (tl : JList)
inductive JFields : Type
  | nil
  | cons (k : String) (v : Json) (tl : JFields)
end

/-- Build a JSON array from a Lean list. -/
def JList.ofList : List Json → JList
  | [] => .nil
  | j :: t => .cons j (JList.ofList t)

/-- Build a JSON object from a Lean association list. -/
def JFields.ofList : List (String × Json) → JFields
  | [] => .nil
  | (k, v) :: t => .cons k v (JFields.ofList t)

/-- Underlying Lean list of a JSON array. -/
def JList.toList : JList → List Json
  | .nil => []
  | .cons j t => j :: JList.toList t

namespace Json

/-- JSON array literal. -/
def arr (l : List Json) : Json := .jarr (JList.ofList l)

/-- JSON object literal. -/
def obj (l : List (String × Json)) : Json := .jobj (JFields.ofList l)

/-- Decimal digit character. -/
def digitChar (n : Nat) : Char := Char.ofNat (48 + n)

/-- Decimal digits of a natural number, most significant first; the
first argument is recursion fuel (any value above the digit count). -/
def natDigits : Nat → Nat → List Char
  | 0, _ => []
  | fuel + 1, n =>
    if n < 10 then [digitChar n]
    else natDigits fuel (n / 10) ++ [digitChar (n % 10)]

/-- Decimal rendering of a natural number. -/
def natRepr (n : Nat) : String := String.mk (natDigits (n + 1) n)

/-- Decimal rendering of an integer. -/
def intRepr (i : Int) : String :=
  if i < 0 then "-" ++ natRepr i.natAbs else natRepr i.natAbs

/-- Render a rational the way JS renders the numbers appearing in this
development: every number serialized here is an integer and renders
without a fractional part (non-integers, which do not occur in the
serialized payloads used below, render as a fraction). -/
def numRepr (q : ℚ) : String :=
  if q.den = 1 then intRepr q.num
  else intRepr q.num ++ "/" ++ natRepr q.den

mutual

/-- `JSON.stringify` (no escaping needed for the strings involved). -/
def stringify : Json → String
  | jstr s => "\"" ++ s ++ "\""
  | jnum q => numRepr q
  | jarr items => "[" ++ stringifyList items ++ "]"
  | jobj fields => "\x7b" ++ stringifyFields fields ++ "\x7d"

def stringifyList : JList → String
  | .nil => ""
  | .cons j .nil => stringify j
  | .cons j t => stringify j ++ "," ++ stringifyList t

def stringifyFields : JFields → String
  | .nil => ""
  | .cons k j .nil => "\"" ++ k ++ "\":" ++ stringify j
  | .cons k j t => "\"" ++ k ++ "\":" ++ stringify j ++ "," ++ stringifyFields t

end

/-- Key lookup among a JSON object's fields. -/
def ffind (f : String) : JFields → Option Json
  | .nil => none
  | .cons k v t => if k = f then some v else ffind f t

/-- Property access `j[f]` on a JS value: defined on objects, otherwise
`undefined` (`none`). -/
def getField : Json → String → Option Json
  | jobj fields, f => ffind f fields
  | _, _ => none

/-- `j[f]` when it is a string, else `undefined`. -/
def getStr (j : Json) (f : String) : Option String :=
  match getField j f with
  | some (jstr s) => some s
  | _ => none

/-- `j[f]` when it is a number, else `undefined`. -/
def getNum (j : Json) (f : String) : Option ℚ :=
  match getField j f with
  | some (jnum q) => some q
  | _ => none

/-- Truthy string access: `j[f]` yields a non-empty string.
(JS `j.f || fallback` treats `''` as falsy.) -/
def getStrT (j : Json) (f : String) : Option String :=
  match getStr j f with
  | some s => if s = "" then none else some s
  | none => none

end Json

open Json

/-! ## Trend Engine heuristics (src/unnamed/part_005, Trend Analysis
Service) -/

/-- The fixed configured niche list (`this.preferredNiches`). -/
def preferredNiches : List String :=
  ["Survival & Emergency Preparedness",
   "DIY & Home Improvement",
   "Personal Finance & Making Money Online",
   "E-Learning & Skill-Building",
   "AI & Automation Tools"]

/-- `getNicheKeywords` — the fixed niche → keyword-list mapping. -/
def getNicheKeywords (niche : String) : List String :=
  if niche = "Survival & Emergency Preparedness" then
    ["survival", "emergency", "preparedness", "prepping", "disaster",
     "food storage", "water filtration", "solar generator", "first aid",
     "emergency kit", "bug out bag", "survival gear"]
  else if niche = "DIY & Home Improvement" then
    ["diy", "home improvement", "tools", "homesteading", "woodworking",
     "gardening", "home repair", "power tools", "hand tools", "renovation",
     "home projects", "building"]
  else if niche = "Personal Finance & Making Money Online" then
    ["personal finance", "money", "investing", "budget", "passive income",
     "side hustle", "make money online", "financial freedom", "debt free",
     "retirement", "stocks", "real estate", "cryptocurrency"]
  else if niche = "E-Learning & Skill-Building" then
    ["e-learning", "online course", "skill building", "education", "training",
     "coding", "programming", "bootcamp", "certification", "tutorial",
     "learn online", "skills development"]
  else if niche = "AI & Automation Tools" then
    ["ai", "artificial intelligence", "automation", "machine learning",
     "chatbot", "ai writing", "ai tools", "automation software", "workflow",
     "productivity tools", "ai assistant", "data analysis"]
  else []

/-- Insert into a word-frequency association list: increment in place if
present, else append (JS object key insertion order). -/
def bumpCount (w : List Char) : List (List Char × Nat) → List (List Char × Nat)
  | [] => [(w, 1)]
  | (w', c) :: t => if w' = w then (w, c + 1) :: t else (w', c) :: bumpCount w t

/-- Stable insertion of one entry into a count-descending list — the
effect of the stable `sort((a, b) => b[1] - a[1])`. -/
def insertDesc (x : List Char × Nat) : List (List Char × Nat) → List (List Char × Nat)
  | [] => [x]
  | y :: ys => if y.2 < x.2 then x :: y :: ys else y :: insertDesc x ys

def sortDesc : List (List Char × Nat) → List (List Char × Nat)
  | [] => []
  | x :: xs => insertDesc x (sortDesc xs)

/-- `extractKeywords(results)`: tokenize the lower-cased serialized
payload, keep tokens longer than 3 characters, count frequencies in
first-occurrence order, sort by count descending (stable) and keep the
top 10. -/
def extractKeywords (results : Json) : List String :=
  let text := lowerStr (stringify results)
  let words := (tokens text).filter (fun w => 3 < w.length)
  let counts := words.foldl (fun acc w => bumpCount w acc) []
  ((sortDesc counts).take 10).map (fun p => String.mk p.1)

/-- The fixed positive word list of `calculateSentiment`. -/
def positiveWords : List String :=
  ["good", "great", "excellent", "amazing", "awesome", "fantastic",
   "wonderful", "best", "love", "perfect", "recommend", "positive",
   "happy", "satisfied", "quality", "easy", "helpful", "valuable"]

/-- The fixed negative word list of `calculateSentiment`. -/
def negativeWords : List String :=
  ["bad", "poor", "terrible", "awful", "horrible", "worst",
   "hate", "difficult", "negative", "problem", "issue", "disappointing",
   "waste", "expensive", "overpriced", "avoid", "broken", "useless"]

/-- Total whole-word occurrences of a word list in a text. -/
def countWords (ws : List String) (text : String) : Nat :=
  ws.foldl (fun acc w => acc + wordCount w text) 0

/-- `calculateSentiment(results)`: whole-word counts of the two fixed
word lists over the lower-cased serialized payload;
`(pos − neg) / (pos + neg)` rounded by `toFixed(2)`, `0` when both
counts are zero. -/
def calculateSentiment (results : Json) : ℚ :=
  let text := lowerStr (stringify results)
  let positiveCount := countWords positiveWords text
  let negativeCount := countWords negativeWords text
  let total := positiveCount + negativeCount
  if total = 0 then 0
  else toFixed2 (((positiveCount : ℚ) - negativeCount) / (total : ℚ))

/-! ## Records (data-storage items, src/unnamed/part_003)

`searchData()` returns items `{id, category, source, timestamp, data}`
where `data` is the stored payload (`{query?, results?}` as far as the
analysis passes are concerned). -/

structure RecData where
  query : Option String
  results : Option Json

structure StoreRecord where
  rid : String
  category : String
  source : String
  timestamp : String
  data : Option RecData

/-- `item.data && item.data.results`. -/
def recResults (r : StoreRecord) : Option Json := r.data.bind (·.results)

/-- `item.data.query || ''` (used by the by-niche pass). -/
def recQueryRaw (r : StoreRecord) : String :=
  ((r.data.bind (·.query)).getD "")

/-! ## Trend Engine state -/

structure KeywordData where
  mentions : Nat
  sentiment : ℚ
  relatedKeywords : List String
  sources : List String
  lastUpdated : String

/-- Product identity: `result.id` when the payload supplies a truthy
id, else the fresh id `product_${Date.now()}_${Math.random()...}` —
modelled as a fresh counter value, which preserves exactly the property
the JS construction is relied on for (each synthesized id is new). -/
inductive ProdKey : Type
  | explicitId (s : String)
  | synth (n : Nat)
  deriving DecidableEq

structure Product where
  pid : ProdKey
  title : String
  description : String
  price : ℚ
  url : String
  image : String
  source : String
  timestamp : String

structure ProductData where
  prod : Product
  mentions : Nat
  sentiment : ℚ
  relatedKeywords : List String
  sources : List String
  lastUpdated : String

structure NicheData where
  popularity : Nat
  growth : ℚ
  keywords : List String
  products : List Product
  lastUpdated : String

/-- `this.trendData` (timeframes modelled abstractly, see
`Trend.analyzeByTimeframe`); `nextId` is the fresh-id counter. -/
structure TrendData where
  niches : List (String × NicheData)
  keywords : List (String × KeywordData)
  products : List (ProdKey × ProductData)
  timeframes : List String
  nextId : Nat

/-- The initial (constructor) trend state. -/
def initTrendData : TrendData := ⟨[], [], [], [], 0⟩

/-- `{success, message}` envelope of an analysis operation. -/
structure OpResult where
  success : Bool
  message : String

namespace Trend

/-- One item of `extractProducts`: admitted iff `result.title ||
result.name` is truthy; fields defaulted exactly as in the source. -/
def mkProduct (result : Json) (pid : ProdKey) (now : String) : Product :=
  { pid := pid
    title := ((getStrT result "title").getD ((getStrT result "name").getD "Unknown Product"))
    description := (getStrT result "description").getD ""
    price := (getNum result "price").getD 0
    url := (getStrT result "url").getD ((getStrT result "link").getD "")
    image := (getStrT result "image").getD ""
    source := (getStrT result "source").getD "unknown"
    timestamp := now }

def extractProductsGo (now : String) : List Json → Nat → List Product × Nat
  | [], ctr => ([], ctr)
  | result :: t, ctr =>
    if (getStrT result "title").isSome || (getStrT result "name").isSome then
      match getStrT result "id" with
      | some s =>
        let (rest, ctr') := extractProductsGo now t ctr
        (mkProduct result (.explicitId s) now :: rest, ctr')
      | none =>
        let (rest, ctr') := extractProductsGo now t (ctr + 1)
        (mkProduct result (.synth ctr) now :: rest, ctr')
    else extractProductsGo now t ctr

/-- `extractProducts(results)`: collects result items exposing a truthy
`title`/`name`; non-arrays yield no products. -/
def extractProducts (results : Json) (ctr : Nat) (now : String) : List Product × Nat :=
  match results with
  | .jarr items => extractProductsGo now items.toList ctr
  | _ => ([], ctr)

/-- The by-niche membership test: some niche keyword occurs
(case-insensitively) in the record's query or serialized results. -/
def matchesNiche (niche : String) (query : String) (results : Json) : Bool :=
  (getNicheKeywords niche).any (fun kw =>
    strIncludes (lowerStr query) (lowerStr kw) ||
    strIncludes (lowerStr (stringify results)) (lowerStr kw))

/-- `keywords` merge of the by-niche pass: append unseen entries. -/
def mergeKeywords (old new : List String) : List String :=
  new.foldl (fun acc kw => if kw ∈ acc then acc else acc ++ [kw]) old

/-- `products` merge of the by-niche pass: append entries whose id is
unseen. -/
def mergeProducts (old new : List Product) : List Product :=
  new.foldl (fun acc p => if acc.any (fun q => q.pid = p.pid) then acc else acc ++ [p]) old

/-- One niche of the initialization at the top of `analyzeByNiche`:
create an empty profile for the niche if it is not yet present. -/
def initNicheStep (now : String) (acc : List (String × NicheData)) (niche : String) :
    List (String × NicheData) :=
  if (alookup niche acc).isSome then acc
  else aset niche ⟨0, 0, [], [], now⟩ acc

/-- Niche initialization at the top of `analyzeByNiche`: create an
empty profile for each configured niche not yet present. -/
def initNiches (now : String) (m : List (String × NicheData)) : List (String × NicheData) :=
  preferredNiches.foldl (initNicheStep now) m

/-- Update one niche for one record (the body of the inner
`preferredNiches.forEach`).  Initialization has made every configured
niche present, so the `none` branch is unreachable there. -/
def stepNicheOne (now : String) (query : String) (results : Json)
    (mc : List (String × NicheData) × Nat) (niche : String) :
    List (String × NicheData) × Nat :=
  if matchesNiche niche query results then
    match alookup niche mc.1 with
    | some nd =>
      let extracted := extractKeywords results
      let (prods, ctr') := extractProducts results mc.2 now
      let nd' : NicheData :=
        { popularity := nd.popularity + 1
          growth := nd.growth
          keywords := mergeKeywords nd.keywords extracted
          products := mergeProducts nd.products prods
          lastUpdated := now }
      (aset niche nd' mc.1, ctr')
    | none => mc
  else mc

/-- Process one record of the by-niche pass. -/
def stepNicheRec (now : String) (mc : List (String × NicheData) × Nat)
    (r : StoreRecord) : List (String × NicheData) × Nat :=
  match recResults r with
  | none => mc
  | some results => preferredNiches.foldl (stepNicheOne now (recQueryRaw r) results) mc

/-- `calculateNicheGrowth`: `growth = popularity × r − popularity`
rounded by `toFixed(2)`, where `r` is the per-niche random factor in
`[0.9, 1.1]` (passed in as `rand`). -/
def applyGrowth (rand : String → ℚ) (m : List (String × NicheData)) :
    List (String × NicheData) :=
  m.map (fun p =>
    (p.1, { p.2 with
            growth := toFixed2 ((p.2.popularity : ℚ) * rand p.1 - (p.2.popularity : ℚ)) }))

/-- `analyzeByNiche(data)`.  (The JS method wraps its body in
`try/catch` and returns a `{success, ...}` envelope that
`analyzeAllData` never reads.) -/
def analyzeByNiche (s : TrendData) (data : List StoreRecord) (now : String)
    (rand : String → ℚ) : TrendData :=
  let m0 := initNiches now s.niches
  let mc := data.foldl (stepNicheRec now) (m0, s.nextId)
  { s with niches := applyGrowth rand mc.1, nextId := mc.2 }

/-- The guard and key of one record of the by-keyword pass: skipped
(`none`) unless `item.data`, `item.data.results` and `item.data.query`
are all truthy; keyed by the lower-cased query. -/
def kwKey (r : StoreRecord) : Option (String × Json) :=
  match r.data with
  | none => none
  | some d =>
    match d.results, d.query with
    | some results, some q => if q = "" then none else some (lowerStr q, results)
    | _, _ => none

/-- The `relatedKeywords` merge: sequentially append extracted keywords
that differ from the query and are not yet present. -/
def relMerge (query : String) (extracted cur : List String) : List String :=
  extracted.foldl
    (fun acc kw => if kw ≠ query ∧ kw ∉ acc then acc ++ [kw] else acc) cur

def kwStep (now : String) (m : List (String × KeywordData)) (r : StoreRecord) :
    List (String × KeywordData) :=
  match kwKey r with
  | none => m
  | some (query, results) =>
    let kd := (alookup query m).getD ⟨0, 0, [], [], now⟩
    let sources' := if r.source ∈ kd.sources then kd.sources else kd.sources ++ [r.source]
    let related' := relMerge query (extractKeywords results) kd.relatedKeywords
    aset query ⟨kd.mentions + 1, calculateSentiment results, related', sources', now⟩ m

/-- `analyzeByKeyword(data)`. -/
def analyzeByKeyword (s : TrendData) (data : List StoreRecord) (now : String) : TrendData :=
  { s with keywords := data.foldl (kwStep now) s.keywords }

/-- Per-product update of the by-product pass. -/
def prodUpd (now : String) (source : String) (results : Json)
    (m : List (ProdKey × ProductData)) (p : Product) : List (ProdKey × ProductData) :=
  let pd := (alookup p.pid m).getD ⟨p, 0, 0, [], [], now⟩
  let sources' := if source ∈ pd.sources then pd.sources else pd.sources ++ [source]
  let related' := (extractKeywords results).foldl
    (fun acc kw => if kw ∉ acc then acc ++ [kw] else acc) pd.relatedKeywords
  aset p.pid ⟨pd.prod, pd.mentions + 1, calculateSentiment results, related', sources', now⟩ m

/-- One record of the by-product pass. -/
def prodStep (now : String) (mc : List (ProdKey × ProductData) × Nat)
    (r : StoreRecord) : List (ProdKey × ProductData) × Nat :=
  match recResults r with
  | none => mc
  | some results =>
    let pc := extractProducts results mc.2 now
    (pc.1.foldl (prodUpd now r.source results) mc.1, pc.2)

/-- `analyzeByProduct(data)`. -/
def analyzeByProduct (s : TrendData) (data : List StoreRecord) (now : String) : TrendData :=
  let mc := data.foldl (prodStep now) (s.products, s.nextId)
  { s with products := mc.1, nextId := mc.2 }

/-- Modelled from the spec: `analyzeByTimeframe` is missing from the
sources (the Trend service file is truncated before it); §4.1 lists it
as the fourth pass over the same snapshot and the data model carries
`timeframes: {daily, weekly, monthly}` buckets.  It is modelled as a
pass that updates only the `timeframes` component (here: with the ids
of the scanned records), leaving niches, keywords and products alone. -/
def analyzeByTimeframe (s : TrendData) (data : List StoreRecord) : TrendData :=
  { s with timeframes := s.timeframes ++ data.map (·.rid) }

/-- `analyzeAllData()` of the Trend Analysis Service, with the record
store snapshot (`dataStorage.searchData()`) passed in as `records`.
Fails softly on an empty snapshot; otherwise runs the four passes in
sequence.  Each sub-pass's own `{success, ...}` envelope is discarded
unread, and the final save-to-storage step is external persistence. -/
def analyzeAllData (s : TrendData) (records : List StoreRecord) (now : String)
    (rand : String → ℚ) : OpResult × TrendData :=
  if records.isEmpty then
    (⟨false, "No data available for analysis"⟩, s)
  else
    let s1 := analyzeByNiche s records now rand
    let s2 := analyzeByKeyword s1 records now
    let s3 := analyzeByProduct s2 records now
    let s4 := analyzeByTimeframe s3 records
    (⟨true, "Successfully analyzed all data for trends"⟩, s4)

/-! Observation helpers (projections of the derived state; the
`none` branches read the initializers' zero values). -/

def mentionsOfM (m : List (String × KeywordData)) (k : String) : Nat :=
  match alookup k m with
  | some d => d.mentions
  | none => 0

def sentimentOfM (m : List (String × KeywordData)) (k : String) : ℚ :=
  match alookup k m with
  | some d => d.sentiment
  | none => 0

def relatedOfM (m : List (String × KeywordData)) (k : String) : List String :=
  match alookup k m with
  | some d => d.relatedKeywords
  | none => []

def popOfM (m : List (String × NicheData)) (n : String) : Nat :=
  match alookup n m with
  | some d => d.popularity
  | none => 0

def psOfM (m : List (ProdKey × ProductData)) (pk : ProdKey) : ℚ :=
  match alookup pk m with
  | some d => d.sentiment
  | none => 0

def kwMentions (s : TrendData) (k : String) : Nat := mentionsOfM s.keywords k

def kwSentiment (s : TrendData) (k : String) : ℚ := sentimentOfM s.keywords k

def kwRelated (s : TrendData) (k : String) : List String := relatedOfM s.keywords k

def nichePopularity (s : TrendData) (n : String) : Nat := popOfM s.niches n

def prodSentiment (s : TrendData) (pk : ProdKey) : ℚ := psOfM s.products pk

/-! Record-classification helpers used to state the per-pass
characterizations. -/

/-- Whether a record matches a niche in the by-niche pass. -/
def nicheRecMatches (n : String) (r : StoreRecord) : Bool :=
  match recResults r with
  | some results => matchesNiche n (recQueryRaw r) results
  | none => false

/-- How many records of a snapshot match a niche (`0` for a niche that
is not configured — the pass only iterates `preferredNiches`). -/
def nicheMatchCount (n : String) (data : List StoreRecord) : Nat :=
  if n ∈ preferredNiches then (data.filter (nicheRecMatches n)).length else 0

/-- Whether the by-keyword pass processes a record under key `k`. -/
def kwHitsRec (k : String) (r : StoreRecord) : Bool :=
  match kwKey r with
  | some p => p.1 == k
  | none => false

/-- How many records of a snapshot the by-keyword pass processes under
key `k` (each adds one mention). -/
def kwHits (k : String) (data : List StoreRecord) : Nat :=
  (data.filter (kwHitsRec k)).length

/-- The results payload of a record if the by-keyword pass processes
it under key `k`. -/
def kwHitRes (k : String) (r : StoreRecord) : Option Json :=
  match kwKey r with
  | some p => if p.1 = k then some p.2 else none
  | none => none

/-- The results payload of the last record (in iteration order) that
the by-keyword pass processes under key `k`. -/
def lastKwRes (k : String) (data : List StoreRecord) : Option Json :=
  data.foldl (fun acc r => (kwHitRes k r).or acc) none

/-- Whether a results payload yields a product with the source-supplied
id `pid` (a truthy `id` together with a truthy `title`/`name`). -/
def hasExplicitProductGo (pid : String) : List Json → Bool
  | [] => false
  | result :: t =>
    (((getStrT result "title").isSome || (getStrT result "name").isSome) &&
      getStrT result "id" == some pid) || hasExplicitProductGo pid t

def hasExplicitProduct (pid : String) (results : Json) : Bool :=
  match results with
  | .jarr items => hasExplicitProductGo pid items.toList
  | _ => false

/-- The results payload of a record if its product extraction yields
the source-supplied product id `pid`. -/
def prodHitRes (pid : String) (r : StoreRecord) : Option Json :=
  match recResults r with
  | some results => if hasExplicitProduct pid results then some results else none
  | none => none

/-- The results payload of the last record (in iteration order) whose
extraction yields the source-supplied product id `pid`. -/
def lastProdRes (pid : String) (data : List StoreRecord) : Option Json :=
  data.foldl (fun acc r => (prodHitRes pid r).or acc) none

end Trend

/-- Positive whole-word count of a serialized payload (the `pos` of the
spec's sentiment formula). -/
def posCount (results : Json) : Nat :=
  countWords positiveWords (lowerStr (Json.stringify results))

/-- Negative whole-word count of a serialized payload. -/
def negCount (results : Json) : Nat :=
  countWords negativeWords (lowerStr (Json.stringify results))

/-! ## Competitor Engine (src/unnamed/part_004, Competitor Analysis
Service) -/

structure ContentItem where
  ctype : String
  cid : Option String
  title : Option String
  description : Option String
  curl : Option String
  image : Option String
  cmetrics : Option Json
  discovered : String

/-- A tracked competitor as stored by `addCompetitor`.  Note that the
stored object literal of `addCompetitor` has *no* `platformId` field —
the extractors pass one in, but it is dropped — so `platformId` is
`none` on every stored profile (`undefined` in JS). -/
structure CompetitorProfile where
  cid : String
  name : Option String
  url : Option String
  platform : String
  platformId : Option String
  niche : String
  description : String
  added : String
  lastUpdated : String
  metrics : List (String × Option ℚ)
  content : List ContentItem
  strategies : List String

/-- `this.competitorData`; the four derived sub-structures
(`strategies`/`content`/`performance`/`niches`) are modelled abstractly
(their analysis passes live in the truncated tail of the source file,
see below); `nextId` is the fresh-id counter. -/
structure CompState where
  competitors : List (String × CompetitorProfile)
  strategies : List String
  contentA : List String
  performance : List String
  nichesA : List (String × List String)
  nextId : Nat

/-- The initial (constructor) competitor state. -/
def initCompState : CompState := ⟨[], [], [], [], [], 0⟩

/-- The argument object handed to `addCompetitor` by the extractors. -/
structure NewCompetitor where
  name : Option String
  url : Option String
  platform : String
  platformId : Option String
  niche : String
  description : String
  metrics : List (String × Option ℚ)

/-- The `updates` objects handed to `updateCompetitor` (each call site
passes either a `metrics` or a `content` replacement). -/
structure CompetitorUpdates where
  metrics : Option (List (String × Option ℚ))
  content : Option (List ContentItem)

namespace Competitor

/-- `addCompetitor(competitor)`: stores
`{id, name, url, platform, niche, description, added, lastUpdated,
metrics, content: [], strategies: []}` under a fresh id
(`competitor_${Date.now()}_${Math.random()...}`, modelled by the
counter).  The extractors' `platformId` argument is not among the
stored fields, so the stored profile's `platformId` is `none`. -/
def addCompetitor (s : CompState) (c : NewCompetitor) (now : String) :
    String × CompState :=
  let cid := "competitor_" ++ natRepr s.nextId
  let profile : CompetitorProfile :=
    { cid := cid
      name := c.name
      url := c.url
      platform := c.platform
      platformId := none
      niche := c.niche
      description := c.description
      added := now
      lastUpdated := now
      metrics := c.metrics
      content := []
      strategies := [] }
  (cid, { s with competitors := aset cid profile s.competitors, nextId := s.nextId + 1 })

/-- `{...existing, ...updates, lastUpdated: now}`. -/
def applyUpdates (p : CompetitorProfile) (u : CompetitorUpdates) (now : String) :
    CompetitorProfile :=
  { p with metrics := u.metrics.getD p.metrics,
           content := u.content.getD p.content,
           lastUpdated := now }

/-- The `updateCompetitor` mutation boundary: throws (`Except.error`)
when the id is unknown. -/
def updateCompetitorCore (s : CompState) (id : String) (u : CompetitorUpdates)
    (now : String) : Except String CompState :=
  match alookup id s.competitors with
  | none => .error ("Competitor with ID " ++ id ++ " not found")
  | some p => .ok { s with competitors := aset id (applyUpdates p u now) s.competitors }

/-- `updateCompetitor(id, updates)`: the `try/catch` wrapper converts
the thrown not-found error into a `false` result with the state
untouched. -/
def updateCompetitor (s : CompState) (id : String) (u : CompetitorUpdates)
    (now : String) : Bool × CompState :=
  match updateCompetitorCore s id u now with
  | .ok s' => (true, s')
  | .error _ => (false, s)

/-- The `removeCompetitor` mutation boundary: throws when the id is
unknown, otherwise deletes the entry. -/
def removeCompetitorCore (s : CompState) (id : String) : Except String CompState :=
  match alookup id s.competitors with
  | none => .error ("Competitor with ID " ++ id ++ " not found")
  | some _ => .ok { s with competitors := adel id s.competitors }

/-- `removeCompetitor(id)` with its `try/catch` wrapper. -/
def removeCompetitor (s : CompState) (id : String) : Bool × CompState :=
  match removeCompetitorCore s id with
  | .ok s' => (true, s')
  | .error _ => (false, s)

/-- Modelled from the spec: `calculateEngagement` lives in the
truncated tail of the Competitor service source.  §4.2 describes
engagement as an "engagement ratio (engagement events ÷ audience,
clamped to [0,1])"; engagement events are the item's metric counts and
the audience its follower count. -/
def calculateEngagement (item : Json) : ℚ :=
  let evs := ["likes", "retweets", "replies", "comments", "shares", "saves"].foldl
    (fun acc f => acc + ((getField item "metrics").bind (fun m => getNum m f)).getD 0) 0
  let aud :=
    match getField item "user" with
    | some u => (getNum u "followers_count").getD 0
    | none =>
      match getField item "author" with
      | some a => (getNum a "followers").getD 0
      | none => 0
  if aud ≤ 0 then 0 else min 1 (evs / aud)

/-- Modelled from the spec: `determineNiche` lives in the truncated
tail of the Competitor service source.  §4.2: "Niche assignment for a
new competitor is decided by the same substring keyword-matching used
in §4.1, applied to the competitor's descriptive text; unmatched text
yields an 'unclassified' bucket."  The first configured niche (in
order) with a keyword occurring case-insensitively in the text wins. -/
def determineNiche (text : String) : String :=
  match preferredNiches.find? (fun niche =>
    (getNicheKeywords niche).any (fun kw =>
      strIncludes (lowerStr text) (lowerStr kw))) with
  | some n => n
  | none => "unclassified"

/-- Twitter metrics object built at both call sites
(`user.statuses_count` is absent from the payloads handled here, hence
an `undefined`-valued entry). -/
def twitterMetrics (user tweet : Json) : List (String × Option ℚ) :=
  [("followers", getNum user "followers_count"),
   ("tweets", getNum user "statuses_count"),
   ("engagement", some (calculateEngagement tweet))]

/-- One tweet of `extractTwitterCompetitors`.  The follower gate
`if (user.followers_count < 1000) return` does not skip when the count
is `undefined` (JS `undefined < 1000` is `false`).  The existing-
competitor lookup tests `competitor.platform === 'twitter' &&
competitor.platformId === user.id`; since stored profiles carry no
`platformId`, this compares `none` against `user.id`. -/
def twitterStep (now : String) (s : CompState) (tweet : Json) : CompState :=
  match getField tweet "user" with
  | none => s
  | some user =>
    let skip : Bool :=
      match getNum user "followers_count" with
      | some f => decide (f < 1000)
      | none => false
    if skip then s
    else
      let uid := getStr user "id"
      match s.competitors.find? (fun p =>
          p.2.platform == "twitter" && p.2.platformId == uid) with
      | some e =>
        (updateCompetitor s e.1 ⟨some (twitterMetrics user tweet), none⟩ now).2
      | none =>
        let niche := determineNiche ((getStr tweet "text").getD "")
        let nc : NewCompetitor :=
          { name := getStr user "name"
            url := some ("https://twitter.com/" ++ ((getStr user "screen_name").getD "undefined"))
            platform := "twitter"
            platformId := getStr user "id"
            niche := niche
            description := (getStrT user "description").getD ""
            metrics := twitterMetrics user tweet }
        (addCompetitor s nc now).2

/-- `extractTwitterCompetitors(results)` (non-arrays are ignored). -/
def extractTwitterCompetitors (s : CompState) (results : Json) (now : String) : CompState :=
  match results with
  | .jarr items => items.toList.foldl (twitterStep now) s
  | _ => s

/-- Pin content item pushed by `extractPinterestCompetitors`. -/
def pinContent (pin : Json) (now : String) : ContentItem :=
  { ctype := "pin"
    cid := none
    title := getStr pin "title"
    description := getStr pin "description"
    curl := getStr pin "link"
    image := getStr pin "image"
    cmetrics := getField pin "metrics"
    discovered := now }

/-- One pin of `extractPinterestCompetitors`: skipped unless
`pin.metrics.saves` is present, truthy (non-zero) and at least 100;
identity is `(platform = 'pinterest', name = pin.creator ||
'Unknown Creator')`; content is de-duplicated by `c.url === pin.link`. -/
def pinStep (now : String) (s : CompState) (pin : Json) : CompState :=
  let saves := (getField pin "metrics").bind (fun m => getNum m "saves")
  let ok : Bool :=
    match saves with
    | some v => decide (¬(v = 0) ∧ ¬(v < 100))
    | none => false
  if ok then
    let creatorName := (getStrT pin "creator").getD "Unknown Creator"
    match s.competitors.find? (fun p =>
        p.2.platform == "pinterest" && p.2.name == some creatorName) with
    | some e =>
      if e.2.content.any (fun ci => ci.curl == getStr pin "link") then s
      else (updateCompetitor s e.1 ⟨none, some (e.2.content ++ [pinContent pin now])⟩ now).2
    | none =>
      let niche := determineNiche
        (((getStr pin "title").getD "undefined") ++ " " ++
          ((getStr pin "description").getD "undefined"))
      let nc : NewCompetitor :=
        { name := some creatorName
          url := getStr pin "link"
          platform := "pinterest"
          platformId := none
          niche := niche
          description := ""
          metrics := [("pins", some 1), ("saves", saves),
                      ("comments", some ((((getField pin "metrics").bind
                        (fun m => getNum m "comments")).getD 0)))] }
      let r := addCompetitor s nc now
      match alookup r.1 r.2.competitors with
      | some c =>
        (updateCompetitor r.2 r.1 ⟨none, some (c.content ++ [pinContent pin now])⟩ now).2
      | none => r.2
  else s

/-- `extractPinterestCompetitors(results)`. -/
def extractPinterestCompetitors (s : CompState) (results : Json) (now : String) : CompState :=
  match results with
  | .jarr items => items.toList.foldl (pinStep now) s
  | _ => s

/-- TikTok metrics object built at both call sites (`videos: 1` — the
source has no total count). -/
def tiktokMetrics (author video : Json) : List (String × Option ℚ) :=
  [("followers", getNum author "followers"),
   ("videos", some 1),
   ("engagement", some (calculateEngagement video))]

/-- Video content item pushed by `extractTikTokCompetitors`. -/
def videoContent (video : Json) (now : String) : ContentItem :=
  { ctype := "video"
    cid := getStr video "id"
    title := none
    description := getStr video "description"
    curl := none
    image := none
    cmetrics := getField video "metrics"
    discovered := now }

/-- One video of `extractTikTokCompetitors`: author gate
`followers < 5000` (again not skipping on `undefined`), lookup by
`platform = 'tiktok' && platformId === author.id`, metrics update plus
content append de-duplicated by `c.id === video.id`. -/
def tiktokStep (now : String) (s : CompState) (video : Json) : CompState :=
  match getField video "author" with
  | none => s
  | some author =>
    let skip : Bool :=
      match getNum author "followers" with
      | some f => decide (f < 5000)
      | none => false
    if skip then s
    else
      let aid := getStr author "id"
      match s.competitors.find? (fun p =>
          p.2.platform == "tiktok" && p.2.platformId == aid) with
      | some e =>
        let s1 := (updateCompetitor s e.1 ⟨some (tiktokMetrics author video), none⟩ now).2
        match alookup e.1 s1.competitors with
        | some c =>
          if c.content.any (fun ci => ci.cid == getStr video "id") then s1
          else (updateCompetitor s1 e.1 ⟨none, some (c.content ++ [videoContent video now])⟩ now).2
        | none => s1
      | none =>
        let niche := determineNiche ((getStr video "description").getD "")
        let nc : NewCompetitor :=
          { name := getStr author "username"
            url := some ("https://tiktok.com/@" ++ ((getStr author "username").getD "undefined"))
            platform := "tiktok"
            platformId := getStr author "id"
            niche := niche
            description := ""
            metrics := tiktokMetrics author video }
        let r := addCompetitor s nc now
        match alookup r.1 r.2.competitors with
        | some c =>
          (updateCompetitor r.2 r.1 ⟨none, some (c.content ++ [videoContent video now])⟩ now).2
        | none => r.2

/-- `extractTikTokCompetitors(results)`. -/
def extractTikTokCompetitors (s : CompState) (results : Json) (now : String) : CompState :=
  match results with
  | .jarr items => items.toList.foldl (tiktokStep now) s
  | _ => s

/-- Modelled from the spec: the tail of `extractGenericCompetitors` is
truncated in the sources; its surviving prefix only tallies textual
competitor mentions into a local map, and §4.2 admits tracked
competitors only through the platform-specific extractors with their
audience thresholds.  Records from other sources therefore add no
tracked competitors. -/
def extractGenericCompetitors (s : CompState) (_results : Json)
    (_source : String) : CompState := s

/-- `identifyCompetitors(data)`: filter to social-media records
(`category === 'socialMedia'` or a known social source) and dispatch on
the source. -/
def identifyCompetitors (s : CompState) (data : List StoreRecord) (now : String) :
    CompState :=
  let socialMediaData := data.filter (fun item =>
    item.category == "socialMedia" ||
      (["twitter", "pinterest", "tiktok"].contains item.source))
  socialMediaData.foldl (fun acc item =>
    match recResults item with
    | none => acc
    | some results =>
      if item.source = "twitter" then extractTwitterCompetitors acc results now
      else if item.source = "pinterest" then extractPinterestCompetitors acc results now
      else if item.source = "tiktok" then extractTikTokCompetitors acc results now
      else extractGenericCompetitors acc results item.source) s

/-- Modelled from the spec: `analyzeCompetitorStrategies` lives in the
truncated tail of the source; per §4.2/§3 the post-identification
passes recompute derived sub-structures from the current profiles and
do not touch the competitor map. -/
def analyzeCompetitorStrategies (s : CompState) : CompState :=
  { s with strategies := s.competitors.map (·.1) }

/-- Modelled from the spec: `analyzeCompetitorContent`, as above. -/
def analyzeCompetitorContent (s : CompState) : CompState :=
  { s with contentA := s.competitors.map (·.1) }

/-- Modelled from the spec: `analyzeCompetitorPerformance`, as above. -/
def analyzeCompetitorPerformance (s : CompState) : CompState :=
  { s with performance := s.competitors.map (·.1) }

/-- Modelled from the spec: the Competitor Engine's `analyzeByNiche`
recomputes the per-niche competitor grouping; the "unclassified"
bucket is excluded from niche-scoped views (§4.2). -/
def analyzeByNiche (s : CompState) : CompState :=
  { s with nichesA := preferredNiches.map (fun n =>
      (n, (s.competitors.filter (fun p => p.2.niche = n)).map (·.1))) }

/-- `analyzeAllData()` of the Competitor Analysis Service with the
record store snapshot passed in.  Fails softly on an empty snapshot;
otherwise runs identification followed by the four derived-state
passes.  Sub-pass return values are discarded unread. -/
def analyzeAllData (s : CompState) (records : List StoreRecord) (now : String) :
    OpResult × CompState :=
  if records.isEmpty then
    (⟨false, "No data available for analysis"⟩, s)
  else
    let s1 := identifyCompetitors s records now
    let s2 := analyzeCompetitorStrategies s1
    let s3 := analyzeCompetitorContent s2
    let s4 := analyzeCompetitorPerformance s3
    let s5 := analyzeByNiche s4
    (⟨true, "Successfully analyzed all data for competitor insights"⟩, s5)

end Competitor

/-! ## Strategy Generator (src/unnamed/part_005, Marketing Strategy
Service) -/

namespace Strategy

/-- `prioritizedNiches.reduce((sum, niche) => sum + niche.priority, 0)`. -/
def totalPriority (prioritizedNiches : List (String × ℚ)) : ℚ :=
  prioritizedNiches.foldl (fun sum niche => sum + niche.2) 0

/-- The budget-allocation step of `generateBudgetStrategy`:
`budgetAllocation[niche.niche] = Math.round((priority / totalPriority)
× initialBudget × 100) / 100`.  The niche prioritization feeding it
(`prioritizeNiches`) sits in the truncated tail of the source file, so
the embedding is parameterized by its output — the `(niche, priority)`
pairs. -/
def generateBudgetStrategy (prioritizedNiches : List (String × ℚ)) (budget : ℚ) :
    List (String × ℚ) :=
  let total := totalPriority prioritizedNiches
  prioritizedNiches.foldl
    (fun acc niche => aset niche.1 (jsRound2 (niche.2 / total * budget)) acc) []

/-- Sum of the allocations of a budget map. -/
def allocSum (m : List (String × ℚ)) : ℚ := (m.map Prod.snd).sum

end Strategy

/-! ## Concrete inputs used by the closed theorems -/

/-- A stored Twitter result item: follower count 5000, text matching
the "AI & Automation Tools" keyword `ai`. -/
def c7tweet : Json := Json.obj
  [("id", Json.jstr "1"), ("text", Json.jstr "ai"),
   ("user", Json.obj
     [("id", Json.jstr "123"), ("username", Json.jstr "u"),
      ("name", Json.jstr "n"), ("followers_count", Json.jnum 5000)]),
   ("metrics", Json.obj
     [("likes", Json.jnum 45), ("retweets", Json.jnum 12), ("replies", Json.jnum 3)])]

/-- The stored record holding `c7tweet` (category `socialMedia`,
source `twitter`, query `ai`). -/
def c7record : StoreRecord :=
  ⟨"socialMedia_twitter_t0", "socialMedia", "twitter", "t0",
   some ⟨some "ai", some (Json.arr [c7tweet])⟩⟩

/-- Competitor state after one `analyzeAllData` over `[c7record]`. -/
def c7comp : CompState := (Competitor.analyzeAllData initCompState [c7record] "t0").2

/-- Trend state after one `analyzeAllData` over `[c7record]`. -/
def c7trend : TrendData :=
  (Trend.analyzeAllData initTrendData [c7record] "t0" (fun _ => 1)).2

/-- Trend state after a second `analyzeAllData` over the unchanged
snapshot `[c7record]`. -/
def c7trend2 : TrendData :=
  (Trend.analyzeAllData c7trend [c7record] "t1" (fun _ => 1)).2

/-- Competitor state after processing the Twitter payload once. -/
def c4twitter1 : CompState :=
  Competitor.extractTwitterCompetitors initCompState (Json.arr [c7tweet]) "t0"

/-- Competitor state after processing the *same* Twitter payload a
second time. -/
def c4twitter2 : CompState :=
  Competitor.extractTwitterCompetitors c4twitter1 (Json.arr [c7tweet]) "t1"

/-- A stored TikTok result item (author follower count 50000). -/
def c4video : Json := Json.obj
  [("id", Json.jstr "v1"), ("description", Json.jstr "ai"),
   ("author", Json.obj
     [("id", Json.jstr "u1"), ("username", Json.jstr "tk"), ("followers", Json.jnum 50000)]),
   ("metrics", Json.obj
     [("views", Json.jnum 100), ("likes", Json.jnum 2),
      ("comments", Json.jnum 3), ("shares", Json.jnum 4)])]

/-- Competitor state after processing the TikTok payload once. -/
def c4tiktok1 : CompState :=
  Competitor.extractTikTokCompetitors initCompState (Json.arr [c4video]) "t0"

/-- Competitor state after processing the *same* TikTok payload a
second time. -/
def c4tiktok2 : CompState :=
  Competitor.extractTikTokCompetitors c4tiktok1 (Json.arr [c4video]) "t1"

/-- Seven focus niches with equal priority 1 (realizable: every focus
niche absent from the trend and gap data receives the same baseline
priority). -/
def c2priorities : List (String × ℚ) :=
  [("n1", 1), ("n2", 1), ("n3", 1), ("n4", 1), ("n5", 1), ("n6", 1), ("n7", 1)]

/-- A payload with two positive words and one negative word. -/
def c3payload : Json := Json.arr [Json.jstr "good great bad"]

/-- A malformed record (no payload) — skipped by every pass. -/
def c9junk : StoreRecord := ⟨"x1", "cat", "src", "t0", none⟩

/-- A result item carrying a source-supplied product id. -/
def c10item : Json := Json.obj [("id", Json.jstr "B1"), ("title", Json.jstr "widget")]

/-- The results payload holding `c10item`. -/
def c10results : Json := Json.arr [c10item]

/-- A stored record with query `q` and payload `c10results`. -/
def c10record : StoreRecord :=
  ⟨"affiliateNetworks_amazon_t0", "affiliateNetworks", "amazon", "t0",
   some ⟨some "q", some c10results⟩⟩

/-!
# Theorems

Generic lemmas about the association-list operations and rounding,
per-pass characterization lemmas, and the claim theorems.
-/

theorem alookup_aset_self {κ α : Type} [DecidableEq κ] (k : κ) (v : α)
    (m : List (κ × α)) : alookup k (aset k v m) = some v := by
  induction m with
  | nil => simp [aset, alookup]
  | cons h t ih =>
    by_cases hk : h.1 = k
    · simp [aset, hk, alookup]
    · simp [aset, hk, alookup, ih]

theorem alookup_aset_ne {κ α : Type} [DecidableEq κ] (k k' : κ) (v : α)
    (m : List (κ × α)) (h : k ≠ k') :
    alookup k' (aset k v m) = alookup k' m := by
  induction m with
  | nil =>
    simp only [aset, alookup]
    rw [if_neg h]
  | cons hd t ih =>
    obtain ⟨k0, v0⟩ := hd
    simp only [aset]
    by_cases hk : k0 = k
    · rw [if_pos hk, hk]
      simp only [alookup]
      rw [if_neg h, if_neg h]
    · rw [if_neg hk]
      simp only [alookup]
      by_cases hk' : k0 = k'
      · rw [if_pos hk', if_pos hk']
      · rw [if_neg hk', if_neg hk', ih]

theorem alookup_map_snd {κ α : Type} [DecidableEq κ] (k : κ) (f : κ → α → α)
    (m : List (κ × α)) :
    alookup k (m.map (fun p => (p.1, f p.1 p.2))) = (alookup k m).map (f k) := by
  induction m with
  | nil => simp [alookup]
  | cons h t ih =>
    by_cases hk : h.1 = k
    · subst hk; simp [alookup]
    · simp [alookup, hk, ih]

theorem alookup_isSome_aset {κ α : Type} [DecidableEq κ] (k k' : κ) (v : α)
    (m : List (κ × α)) (h : (alookup k' m).isSome) :
    (alookup k' (aset k v m)).isSome := by
  by_cases hk : k = k'
  · subst hk; rw [alookup_aset_self]; rfl
  · rwa [alookup_aset_ne k k' v m hk]

theorem alookup_append {κ α : Type} [DecidableEq κ] (k : κ)
    (m₁ m₂ : List (κ × α)) :
    alookup k (m₁ ++ m₂) =
      match alookup k m₁ with
      | some v => some v
      | none => alookup k m₂ := by
  induction m₁ with
  | nil => simp [alookup]
  | cons h t ih =>
    by_cases hk : h.1 = k
    · simp [alookup, hk]
    · simp [alookup, hk, ih]

theorem aset_fresh_append {κ α : Type} [DecidableEq κ] (k : κ) (v : α)
    (m : List (κ × α)) (h : alookup k m = none) :
    aset k v m = m ++ [(k, v)] := by
  induction m with
  | nil => simp [aset]
  | cons hd t ih =>
    by_cases hk : hd.1 = k
    · rw [alookup, if_pos hk] at h
      exact absurd h (by simp)
    · rw [alookup, if_neg hk] at h
      obtain ⟨k0, v0⟩ := hd
      simp only at hk
      simp [aset, hk, ih h]

theorem jsRound2_err (x : ℚ) : |jsRound2 x - x| ≤ 1/200 := by
  have h1 : (Int.floor (x * 100 + 1/2) : ℚ) ≤ x * 100 + 1/2 := Int.floor_le _
  have h2 : x * 100 + 1/2 - 1 < (Int.floor (x * 100 + 1/2) : ℚ) := Int.sub_one_lt_floor _
  rw [abs_le, jsRound2]
  constructor
  · linarith
  · linarith

theorem totalPriority_aux (l : List (String × ℚ)) :
    ∀ a : ℚ, l.foldl (fun s p => s + p.2) a = a + (l.map Prod.snd).sum := by
  induction l with
  | nil => intro a; simp
  | cons p t ih => intro a; simp [ih, add_assoc]

theorem sum_map_mul_right' (g : (String × ℚ) → ℚ) (c : ℚ) (l : List (String × ℚ)) :
    (l.map (fun x => g x * c)).sum = (l.map g).sum * c := by
  induction l with
  | nil => simp
  | cons p t ih => simp [ih, add_mul]

theorem sum_jsRound2_err (g : (String × ℚ) → ℚ) (l : List (String × ℚ)) :
    |(l.map (fun p => jsRound2 (g p))).sum - (l.map g).sum| ≤ l.length * (1/200) := by
  induction l with
  | nil => simp
  | cons p t ih =>
    simp only [List.map, List.sum_cons, List.length_cons]
    have h1 := jsRound2_err (g p)
    calc |jsRound2 (g p) + (t.map (fun p => jsRound2 (g p))).sum - ((g p) + (t.map g).sum)|
        = |(jsRound2 (g p) - g p) + ((t.map (fun p => jsRound2 (g p))).sum - (t.map g).sum)| := by
          ring_nf
      _ ≤ |jsRound2 (g p) - g p| + |(t.map (fun p => jsRound2 (g p))).sum - (t.map g).sum| :=
          abs_add _ _
      _ ≤ 1/200 + t.length * (1/200) := add_le_add h1 ih
      _ = (t.length + 1) * (1/200) := by ring
      _ = ((t.length + 1 : Nat) : ℚ) * (1/200) := by push_cast; ring

theorem buildAlloc (f : String × ℚ → ℚ) :
    ∀ (l : List (String × ℚ)) (acc : List (String × ℚ)),
      (∀ p ∈ l, alookup p.1 acc = none) → (l.map Prod.fst).Nodup →
      l.foldl (fun m p => aset p.1 (f p) m) acc = acc ++ l.map (fun p => (p.1, f p)) := by
  intro l
  induction l with
  | nil => intro acc _ _; simp
  | cons p t ih =>
    intro acc hfresh hnd
    rw [List.map_cons, List.nodup_cons] at hnd
    simp only [List.foldl]
    rw [aset_fresh_append p.1 (f p) acc (hfresh p (by simp))]
    have hfresh' : ∀ q ∈ t, alookup q.1 (acc ++ [(p.1, f p)]) = none := by
      intro q hq
      have hne : ¬ p.1 = q.1 :=
        fun hcon => hnd.1 (hcon ▸ List.mem_map_of_mem Prod.fst hq)
      rw [alookup_append, hfresh q (by simp [hq])]
      simp only [alookup, if_neg hne]
    rw [ih (acc ++ [(p.1, f p)]) hfresh' hnd.2]
    simp

/-- C2 is false as stated: with seven equal-priority focus niches and
budget 20 every allocation rounds `20/7 ≈ 2.857` up to `2.86`, so the
allocations sum to `20.02`, which misses the budget by `0.02 > 0.01`. -/
theorem c2_tolerance_counterexample :
    Strategy.allocSum (Strategy.generateBudgetStrategy c2priorities 20) = 1001/50 ∧
    ¬(|Strategy.allocSum (Strategy.generateBudgetStrategy c2priorities 20) - 20| ≤
        (1/100 : ℚ)) := by
  have h : Strategy.allocSum (Strategy.generateBudgetStrategy c2priorities 20) = 1001/50 := by
    simp only [Strategy.generateBudgetStrategy, Strategy.totalPriority, Strategy.allocSum,
      c2priorities, List.foldl, aset, alookup, List.map]
    norm_num [jsRound2]
  refine ⟨h, ?_⟩
  rw [h]
  rw [show |(1001 : ℚ)/50 - 20| = 1/50 by norm_num [abs_of_nonneg]]
  norm_num

/-- C2 amended: for distinct focus niches with positive priorities the
allocations of `generateBudgetStrategy` — `priority/Σpriority × budget`
rounded to cents — sum to `options.budget` within `0.005 × n` absolute
tolerance, `n` the number of focus niches (each rounding moves an
allocation by at most half a cent; the `0.01` bound of the claim holds
only for `n ≤ 2`). -/
theorem c2_budget_sum_amended (l : List (String × ℚ)) (budget : ℚ)
    (hnd : (l.map Prod.fst).Nodup) (hpos : ∀ p ∈ l, 0 < p.2) (hne : l ≠ []) :
    |Strategy.allocSum (Strategy.generateBudgetStrategy l budget) - budget| ≤
      l.length * (1/200) := by
  set T := Strategy.totalPriority l with hT
  have hTsum : T = (l.map Prod.snd).sum := by
    rw [hT, Strategy.totalPriority, totalPriority_aux l 0, zero_add]
  have hTpos : 0 < T := by
    rw [hTsum]
    apply List.sum_pos
    · intro x hx
      obtain ⟨p, hp, rfl⟩ := List.mem_map.mp hx
      exact hpos p hp
    · simpa using hne
  have hbuild : Strategy.generateBudgetStrategy l budget =
      l.map (fun p => (p.1, jsRound2 (p.2 / T * budget))) := by
    rw [Strategy.generateBudgetStrategy, ← hT]
    have := buildAlloc (fun p => jsRound2 (p.2 / T * budget)) l []
      (fun p _ => rfl) hnd
    simpa using this
  rw [hbuild]
  have hsnd : Strategy.allocSum (l.map (fun p => (p.1, jsRound2 (p.2 / T * budget)))) =
      (l.map (fun p => jsRound2 (p.2 / T * budget))).sum := by
    rw [Strategy.allocSum, List.map_map]
    rfl
  rw [hsnd]
  have hideal : (l.map (fun p => p.2 / T * budget)).sum = budget := by
    have hcong : l.map (fun p => p.2 / T * budget) =
        l.map (fun p => Prod.snd p * (budget / T)) := by
      apply List.map_congr_left
      intro p _
      field_simp
    rw [hcong, sum_map_mul_right', ← hTsum, ← mul_div_assoc,
      mul_div_cancel_left₀ _ (ne_of_gt hTpos)]
  calc |(l.map (fun p => jsRound2 (p.2 / T * budget))).sum - budget|
      = |(l.map (fun p => jsRound2 (p.2 / T * budget))).sum -
          (l.map (fun p => p.2 / T * budget)).sum| := by rw [hideal]
    _ ≤ l.length * (1/200) := sum_jsRound2_err _ l

/-- Witness for C2 amended at the seven-niche input. -/
theorem c2_budget_sum_amended_witness :
    |Strategy.allocSum (Strategy.generateBudgetStrategy c2priorities 20) - 20| ≤
      c2priorities.length * (1/200) :=
  c2_budget_sum_amended c2priorities 20 (by decide) (by decide) (by decide)

/-- C5: on an empty Record Store snapshot both engines' `analyzeAllData`
return a `{success: false, message}` result (no exception is possible —
the embedding is total) and leave the previously-valid derived state
exactly as it was. -/
theorem c5_empty_snapshot_soft_failure (ts : TrendData) (cs : CompState)
    (now : String) (rand : String → ℚ) :
    Trend.analyzeAllData ts [] now rand =
      (⟨false, "No data available for analysis"⟩, ts) ∧
    Competitor.analyzeAllData cs [] now =
      (⟨false, "No data available for analysis"⟩, cs) :=
  ⟨rfl, rfl⟩

/-- C8: calling `updateCompetitor` or `removeCompetitor` with an unknown
id makes the mutation boundary throw (`Except.error`), which the wrapper
catches and converts into a `false` (`{success: false}`) result, leaving
the stored competitor map — indeed the whole state — unchanged. -/
theorem c8_unknown_id_soft_failure (s : CompState) (id : String)
    (u : CompetitorUpdates) (now : String)
    (h : alookup id s.competitors = none) :
    Competitor.updateCompetitorCore s id u now =
      Except.error ("Competitor with ID " ++ id ++ " not found") ∧
    Competitor.updateCompetitor s id u now = (false, s) ∧
    Competitor.removeCompetitorCore s id =
      Except.error ("Competitor with ID " ++ id ++ " not found") ∧
    Competitor.removeCompetitor s id = (false, s) := by
  refine ⟨?_, ?_, ?_, ?_⟩ <;>
    simp [Competitor.updateCompetitorCore, Competitor.updateCompetitor,
      Competitor.removeCompetitorCore, Competitor.removeCompetitor, h]

/-- Witness for C8 at a concrete state and id. -/
theorem c8_unknown_id_soft_failure_witness :
    alookup "nope" initCompState.competitors = none ∧
    Competitor.updateCompetitor initCompState "nope" ⟨none, none⟩ "t0" =
      (false, initCompState) ∧
    Competitor.removeCompetitor initCompState "nope" = (false, initCompState) := by
  refine ⟨rfl, ?_, ?_⟩
  · exact (c8_unknown_id_soft_failure initCompState "nope" ⟨none, none⟩ "t0" rfl).2.1
  · exact (c8_unknown_id_soft_failure initCompState "nope" ⟨none, none⟩ "t0" rfl).2.2.2

/-- C9: for every non-empty snapshot both engines' `analyzeAllData`
return `{success: true}` — the quantification is over arbitrary record
lists, including malformed ones, because each sub-pass absorbs its own
failures and the top level never reads the sub-pass results. -/
theorem c9_success_regardless_of_subpasses (ts : TrendData) (cs : CompState)
    (records : List StoreRecord) (now : String) (rand : String → ℚ)
    (h : records ≠ []) :
    (Trend.analyzeAllData ts records now rand).1 =
      ⟨true, "Successfully analyzed all data for trends"⟩ ∧
    (Competitor.analyzeAllData cs records now).1 =
      ⟨true, "Successfully analyzed all data for competitor insights"⟩ := by
  match records, h with
  | r :: rs, _ => exact ⟨rfl, rfl⟩

/-- Witness for C9 at a snapshot containing only a malformed record. -/
theorem c9_success_regardless_of_subpasses_witness :
    [c9junk] ≠ [] ∧
    (Trend.analyzeAllData initTrendData [c9junk] "t0" (fun _ => 1)).1.success = true ∧
    (Competitor.analyzeAllData initCompState [c9junk] "t0").1.success = true := by
  refine ⟨by simp, ?_, ?_⟩
  · rw [(c9_success_regardless_of_subpasses initTrendData initCompState [c9junk]
      "t0" (fun _ => 1) (by simp)).1]
  · rw [(c9_success_regardless_of_subpasses initTrendData initCompState [c9junk]
      "t0" (fun _ => 1) (by simp)).2]

/-- C7: one stored Twitter record (follower count 5000, text matching
the "AI & Automation Tools" keyword `ai`): the Competitor Engine's
`analyzeAllData` yields exactly one CompetitorProfile, with platform
`twitter` and niche `AI & Automation Tools`, and the Trend Engine's
`analyzeAllData` over the same record yields popularity 1 for that
niche. -/
theorem c7_end_to_end_single_twitter_record :
    c7comp.competitors.map (fun p => (p.2.platform, p.2.niche)) =
      [("twitter", "AI & Automation Tools")] ∧
    Trend.nichePopularity c7trend "AI & Automation Tools" = 1 := by
  constructor
  · decide
  · decide

/-- C4 (the code violates the claim): processing the very same
competitor-identifying record twice *does* create two
CompetitorProfiles for the same identity, on Twitter and on TikTok
alike — `addCompetitor` drops the `platformId` the extractors pass in,
so the `(platform, platformId)` lookup never matches a stored profile. -/
theorem c4_duplicate_profile_on_reingestion :
    c4twitter1.competitors.length = 1 ∧
    c4twitter2.competitors.length = 2 ∧
    c4twitter2.competitors.map (fun p => (p.2.platform, p.2.platformId, p.2.name)) =
      [("twitter", none, some "n"), ("twitter", none, some "n")] ∧
    c4tiktok1.competitors.length = 1 ∧
    c4tiktok2.competitors.length = 2 ∧
    c4tiktok2.competitors.map (fun p => (p.2.platform, p.2.platformId, p.2.name)) =
      [("tiktok", none, some "tk"), ("tiktok", none, some "tk")] := by
  refine ⟨?_, ?_, ?_, ?_, ?_, ?_⟩ <;> decide

theorem toFixed2_bounds (x : ℚ) (h1 : -1 ≤ x) (h2 : x ≤ 1) :
    -1 ≤ toFixed2 x ∧ toFixed2 x ≤ 1 := by
  rw [toFixed2]
  by_cases h : 0 ≤ x
  · rw [if_pos h]
    have hub : Int.floor (x * 100 + 1/2) ≤ 100 := by
      have := Int.floor_le_floor (α := ℚ) (show x * 100 + 1/2 ≤ 201/2 by linarith)
      simpa [show Int.floor ((201 : ℚ)/2) = 100 by norm_num] using this
    have hlb : (0 : ℤ) ≤ Int.floor (x * 100 + 1/2) :=
      Int.floor_nonneg.mpr (by linarith)
    have hub' : (Int.floor (x * 100 + 1/2) : ℚ) ≤ 100 := by exact_mod_cast hub
    have hlb' : (0 : ℚ) ≤ (Int.floor (x * 100 + 1/2) : ℚ) := by exact_mod_cast hlb
    constructor <;> linarith
  · rw [if_neg h]
    push_neg at h
    have hub : Int.floor (-x * 100 + 1/2) ≤ 100 := by
      have := Int.floor_le_floor (α := ℚ) (show -x * 100 + 1/2 ≤ 201/2 by linarith)
      simpa [show Int.floor ((201 : ℚ)/2) = 100 by norm_num] using this
    have hlb : (0 : ℤ) ≤ Int.floor (-x * 100 + 1/2) :=
      Int.floor_nonneg.mpr (by linarith)
    have hub' : (Int.floor (-x * 100 + 1/2) : ℚ) ≤ 100 := by exact_mod_cast hub
    have hlb' : (0 : ℚ) ≤ (Int.floor (-x * 100 + 1/2) : ℚ) := by exact_mod_cast hlb
    constructor <;> linarith

/-- Evaluation of the embedded `calculateSentiment` on the payload with
two positive and one negative whole-word matches. -/
theorem calculateSentiment_c3payload : calculateSentiment c3payload = 33/100 := by
  have hp : countWords positiveWords (lowerStr (Json.stringify c3payload)) = 2 := by decide
  have hn : countWords negativeWords (lowerStr (Json.stringify c3payload)) = 1 := by decide
  rw [calculateSentiment, hp, hn]
  norm_num [toFixed2]

/-- C3 is false as stated: `calculateSentiment` does not return
`(pos − neg) / (pos + neg)` — it returns that ratio rounded to two
decimals (`toFixed(2)`), and at a payload with `pos = 2`, `neg = 1` the
returned `0.33` differs from `1/3`. -/
theorem c3_exact_ratio_counterexample :
    posCount c3payload = 2 ∧ negCount c3payload = 1 ∧
    calculateSentiment c3payload = 33/100 ∧
    ¬(calculateSentiment c3payload =
        ((posCount c3payload : ℚ) - negCount c3payload) /
          ((posCount c3payload : ℚ) + negCount c3payload)) := by
  have hp : posCount c3payload = 2 := by decide
  have hn : negCount c3payload = 1 := by decide
  refine ⟨hp, hn, calculateSentiment_c3payload, ?_⟩
  rw [calculateSentiment_c3payload, hp, hn]
  norm_num

/-- C3 amended: `calculateSentiment` returns `(pos − neg)/(pos + neg)`
*rounded to two decimals* where `pos`/`neg` are the whole-word counts of
the fixed word lists over the serialized payload; it returns exactly `0`
when both counts are zero, and the result always lies in `[-1, 1]`.  (It
is a Lean function of the payload, hence deterministic and pure.) -/
theorem c3_sentiment_amended (results : Json) :
    (posCount results + negCount results = 0 → calculateSentiment results = 0) ∧
    (posCount results + negCount results ≠ 0 →
      calculateSentiment results =
        toFixed2 (((posCount results : ℚ) - negCount results) /
          ((posCount results : ℚ) + negCount results))) ∧
    -1 ≤ calculateSentiment results ∧ calculateSentiment results ≤ 1 := by
  rw [calculateSentiment]
  rw [show countWords positiveWords (lowerStr (Json.stringify results)) =
        posCount results from rfl,
      show countWords negativeWords (lowerStr (Json.stringify results)) =
        negCount results from rfl]
  refine ⟨fun h => by rw [if_pos h], fun h => by rw [if_neg h, Nat.cast_add], ?_⟩
  by_cases h : posCount results + negCount results = 0
  · rw [if_pos h]
    norm_num
  · rw [if_neg h, Nat.cast_add]
    have ht : (0 : ℚ) < ((posCount results : ℚ) + negCount results) := by
      have : 0 < posCount results + negCount results := Nat.pos_of_ne_zero h
      exact_mod_cast this
    have hp : (0 : ℚ) ≤ (posCount results : ℚ) := Nat.cast_nonneg _
    have hn : (0 : ℚ) ≤ (negCount results : ℚ) := Nat.cast_nonneg _
    apply toFixed2_bounds
    · rw [le_div_iff₀ ht]
      linarith
    · rw [div_le_one ht]
      linarith

/-- Witness for C3 amended at the concrete payload. -/
theorem c3_sentiment_amended_witness :
    posCount c3payload + negCount c3payload ≠ 0 ∧
    calculateSentiment c3payload =
      toFixed2 (((posCount c3payload : ℚ) - negCount c3payload) /
        ((posCount c3payload : ℚ) + negCount c3payload)) ∧
    -1 ≤ calculateSentiment c3payload ∧ calculateSentiment c3payload ≤ 1 :=
  ⟨by decide, (c3_sentiment_amended c3payload).2.1 (by decide),
    (c3_sentiment_amended c3payload).2.2⟩

/-- C1 is false as stated: re-running `analyzeAllData` on the unchanged
one-record snapshot changes the keyword's `mentions` (1 to 2) and the
matched niche's `popularity` (1 to 2) — the counters accumulate. -/
theorem c1_second_pass_counterexample :
    Trend.kwMentions c7trend "ai" = 1 ∧
    Trend.kwMentions c7trend2 "ai" = 2 ∧
    Trend.nichePopularity c7trend "AI & Automation Tools" = 1 ∧
    Trend.nichePopularity c7trend2 "AI & Automation Tools" = 2 ∧
    ¬(Trend.kwMentions c7trend2 "ai" = Trend.kwMentions c7trend "ai") := by
  refine ⟨?_, ?_, ?_, ?_, ?_⟩ <;> decide


namespace Trend

theorem lastFold (hit : StoreRecord → Option Json) :
    ∀ (rs : List StoreRecord) (acc : Option Json),
      rs.foldl (fun a r => (hit r).or a) acc =
        (rs.foldl (fun a r => (hit r).or a) none).or acc := by
  intro rs
  induction rs with
  | nil => intro acc; simp
  | cons r t ih =>
    intro acc
    simp only [List.foldl]
    rw [ih ((hit r).or acc), ih ((hit r).or none)]
    cases hh : hit r <;> cases hacc : t.foldl (fun a r => (hit r).or a) none <;>
      simp [Option.or, hh, hacc]

-- step lemmas
theorem kwStep_none (now : String) (m : List (String × KeywordData)) (r : StoreRecord)
    (h : kwKey r = none) : kwStep now m r = m := by
  simp [kwStep, h]

theorem kwStep_frame (now : String) (m : List (String × KeywordData)) (r : StoreRecord)
    (q : String) (res : Json) (h : kwKey r = some (q, res)) (k : String) (hk : k ≠ q) :
    alookup k (kwStep now m r) = alookup k m := by
  simp only [kwStep, h]
  exact alookup_aset_ne q k _ m (fun e => hk e.symm)

theorem kwStep_mentions (now : String) (m : List (String × KeywordData)) (r : StoreRecord)
    (q : String) (res : Json) (h : kwKey r = some (q, res)) :
    mentionsOfM (kwStep now m r) q = mentionsOfM m q + 1 := by
  simp only [kwStep, h, mentionsOfM, alookup_aset_self]
  cases he : alookup q m <;> simp [he]

theorem kwStep_sentiment (now : String) (m : List (String × KeywordData)) (r : StoreRecord)
    (q : String) (res : Json) (h : kwKey r = some (q, res)) :
    sentimentOfM (kwStep now m r) q = calculateSentiment res := by
  simp only [kwStep, h, sentimentOfM, alookup_aset_self]

theorem kwStep_related (now : String) (m : List (String × KeywordData)) (r : StoreRecord)
    (q : String) (res : Json) (h : kwKey r = some (q, res)) :
    relatedOfM (kwStep now m r) q = relMerge q (extractKeywords res) (relatedOfM m q) := by
  simp only [kwStep, h, relatedOfM, alookup_aset_self]
  cases he : alookup q m <;> simp [he]

-- fold-level lemmas
theorem kwFold_frame (now : String) (k : String) :
    ∀ (rs : List StoreRecord) (m : List (String × KeywordData)),
      lastKwRes k rs = none →
      alookup k (rs.foldl (kwStep now) m) = alookup k m := by
  intro rs
  induction rs with
  | nil => intro m _; rfl
  | cons r t ih =>
    intro m hlast
    rw [lastKwRes, List.foldl, lastFold (kwHitRes k) t] at hlast
    simp only [List.foldl]
    cases ht : t.foldl (fun a r => (kwHitRes k r).or a) none with
    | some res => rw [ht] at hlast; exact absurd hlast (by simp [Option.or])
    | none =>
      rw [ht] at hlast
      have ht' : lastKwRes k t = none := ht
      rw [ih (kwStep now m r) ht']
      cases hkk : kwKey r with
      | none => rw [kwStep_none now m r hkk]
      | some p =>
        have hne : k ≠ p.1 := by
          intro he
          simp only [kwHitRes, hkk, if_pos he.symm, Option.or] at hlast
          exact Option.noConfusion hlast
        exact kwStep_frame now m r p.1 p.2 (by rw [hkk]) k hne

theorem kwFold_mentions (now : String) (k : String) :
    ∀ (rs : List StoreRecord) (m : List (String × KeywordData)),
      mentionsOfM (rs.foldl (kwStep now) m) k = mentionsOfM m k + kwHits k rs := by
  intro rs
  induction rs with
  | nil => intro m; simp [kwHits]
  | cons r t ih =>
    intro m
    simp only [List.foldl]
    rw [ih (kwStep now m r)]
    have hsplit : kwHits k (r :: t) =
        (if kwHitsRec k r then 1 else 0) + kwHits k t := by
      simp only [kwHits, List.filter]
      cases h : kwHitsRec k r
      · simp [h]
      · simp [h]
        omega
    rw [hsplit]
    cases hkk : kwKey r with
    | none =>
      rw [kwStep_none now m r hkk]
      have hz : kwHitsRec k r = false := by simp [kwHitsRec, hkk]
      rw [hz]
      simp
    | some p =>
      by_cases he : p.1 = k
      · subst he
        rw [kwStep_mentions now m r p.1 p.2 (by rw [hkk])]
        have ho : kwHitsRec p.1 r = true := by simp [kwHitsRec, hkk]
        rw [ho]
        simp only [if_true]
        omega
      · have hfr := kwStep_frame now m r p.1 p.2 (by rw [hkk]) k (fun e => he e.symm)
        rw [mentionsOfM, hfr, ← mentionsOfM]
        have hz : kwHitsRec k r = false := by
          simp [kwHitsRec, hkk]
          exact he
        rw [hz]
        simp

theorem kwFold_sentiment (now : String) (k : String) :
    ∀ (rs : List StoreRecord) (m : List (String × KeywordData)) (res : Json),
      lastKwRes k rs = some res →
      sentimentOfM (rs.foldl (kwStep now) m) k = calculateSentiment res := by
  intro rs
  induction rs with
  | nil => intro m res h; exact absurd h (by simp [lastKwRes])
  | cons r t ih =>
    intro m res hlast
    rw [lastKwRes, List.foldl, lastFold (kwHitRes k) t] at hlast
    simp only [List.foldl]
    cases ht : t.foldl (fun a r => (kwHitRes k r).or a) none with
    | some res' =>
      rw [ht] at hlast
      simp only [Option.or] at hlast
      have ht' : lastKwRes k t = some res' := ht
      rw [ih (kwStep now m r) res' ht']
      injection hlast with hres
      rw [hres]
    | none =>
      rw [ht] at hlast
      simp only [Option.or] at hlast
      have ht' : lastKwRes k t = none := ht
      have hfr := kwFold_frame now k t (kwStep now m r) ht'
      rw [sentimentOfM, hfr, ← sentimentOfM]
      cases hkk : kwKey r with
      | none =>
        simp only [kwHitRes, hkk, Option.or] at hlast
        exact Option.noConfusion hlast
      | some p =>
        simp only [kwHitRes, hkk] at hlast
        by_cases he : p.1 = k
        · rw [if_pos he] at hlast
          simp only [Option.or] at hlast
          have hres : p.2 = res := by injection hlast
          subst he
          rw [kwStep_sentiment now m r p.1 p.2 (by rw [hkk]), hres]
        · rw [if_neg he] at hlast
          simp only [Option.or] at hlast
          exact Option.noConfusion hlast

-- relMerge lemmas (from earlier prototype)
theorem relMerge_mono (q : String) (ext : List String) :
    ∀ (cur : List String) (x : String), x ∈ cur → x ∈ relMerge q ext cur := by
  induction ext with
  | nil => intro cur x hx; exact hx
  | cons kw t ih =>
    intro cur x hx
    simp only [relMerge, List.foldl]
    by_cases hc : kw ≠ q ∧ kw ∉ cur
    · rw [if_pos hc]
      exact ih (cur ++ [kw]) x (List.mem_append_left _ hx)
    · rw [if_neg hc]
      exact ih cur x hx

theorem relMerge_absorb (q : String) (ext : List String) :
    ∀ (cur : List String) (kw : String), kw ∈ ext → kw ≠ q →
      kw ∈ relMerge q ext cur := by
  induction ext with
  | nil => intro _ _ h _; exact absurd h (List.not_mem_nil _)
  | cons x t ih =>
    intro cur kw hmem hne
    simp only [relMerge, List.foldl]
    rcases List.mem_cons.mp hmem with he | ht
    · subst he
      by_cases hc : kw ≠ q ∧ kw ∉ cur
      · rw [if_pos hc]
        exact relMerge_mono q t _ kw (List.mem_append_right _ (by simp))
      · rw [if_neg hc]
        have : kw ∈ cur := by
          by_contra hnc
          exact hc ⟨hne, hnc⟩
        exact relMerge_mono q t cur kw this
    · by_cases hc : x ≠ q ∧ x ∉ cur
      · rw [if_pos hc]; exact ih _ kw ht hne
      · rw [if_neg hc]; exact ih _ kw ht hne

theorem relMerge_noop (q : String) (ext : List String) :
    ∀ (cur : List String), (∀ kw ∈ ext, kw = q ∨ kw ∈ cur) →
      relMerge q ext cur = cur := by
  induction ext with
  | nil => intro cur _; rfl
  | cons x t ih =>
    intro cur hall
    simp only [relMerge, List.foldl]
    have hx := hall x (by simp)
    rw [if_neg ?_]
    · exact ih cur (fun kw hkw => hall kw (by simp [hkw]))
    · rintro ⟨hne, hnm⟩
      rcases hx with h | h
      · exact hne h
      · exact hnm h

-- step-level related monotonicity
theorem kwStep_related_mono (now : String) (m : List (String × KeywordData))
    (r : StoreRecord) (k x : String) (hx : x ∈ relatedOfM m k) :
    x ∈ relatedOfM (kwStep now m r) k := by
  cases hkk : kwKey r with
  | none => rw [kwStep_none now m r hkk]; exact hx
  | some p =>
    by_cases he : p.1 = k
    · subst he
      rw [kwStep_related now m r p.1 p.2 (by rw [hkk])]
      exact relMerge_mono p.1 (extractKeywords p.2) _ x hx
    · have hfr := kwStep_frame now m r p.1 p.2 (by rw [hkk]) k (fun e => he e.symm)
      rw [relatedOfM, hfr, ← relatedOfM]
      exact hx

theorem kwFold_related_mono (now : String) (k x : String) :
    ∀ (rs : List StoreRecord) (m : List (String × KeywordData)),
      x ∈ relatedOfM m k → x ∈ relatedOfM (rs.foldl (kwStep now) m) k := by
  intro rs
  induction rs with
  | nil => intro m hx; exact hx
  | cons r t ih =>
    intro m hx
    exact ih (kwStep now m r) (kwStep_related_mono now m r k x hx)

-- invariant: after a pass, every record's extracted keywords are inside
theorem kwFold_related_invariant (now : String) :
    ∀ (rs : List StoreRecord) (m : List (String × KeywordData)) (r : StoreRecord)
      (q : String) (res : Json), r ∈ rs → kwKey r = some (q, res) →
      ∀ kw ∈ extractKeywords res, kw ≠ q →
        kw ∈ relatedOfM (rs.foldl (kwStep now) m) q := by
  intro rs
  induction rs with
  | nil => intro _ _ _ _ h; exact absurd h (List.not_mem_nil _)
  | cons r0 t ih =>
    intro m r q res hmem hkey kw hkw hne
    simp only [List.foldl]
    rcases List.mem_cons.mp hmem with he | ht
    · subst he
      apply kwFold_related_mono now q kw t (kwStep now m r)
      rw [kwStep_related now m r q res hkey]
      exact relMerge_absorb q (extractKeywords res) _ kw hkw hne
    · exact ih (kwStep now m r0) r q res ht hkey kw hkw hne

-- stability: a pass whose extracted keywords are all already present
-- leaves every relatedKeywords list unchanged
theorem kwStep_related_stable (now : String) (m : List (String × KeywordData))
    (r : StoreRecord)
    (hsat : ∀ (q : String) (res : Json), kwKey r = some (q, res) →
      ∀ kw ∈ extractKeywords res, kw ≠ q → kw ∈ relatedOfM m q) (k : String) :
    relatedOfM (kwStep now m r) k = relatedOfM m k := by
  cases hkk : kwKey r with
  | none => rw [kwStep_none now m r hkk]
  | some p =>
    by_cases he : p.1 = k
    · subst he
      rw [kwStep_related now m r p.1 p.2 (by rw [hkk])]
      apply relMerge_noop
      intro kw hkw
      by_cases hq : kw = p.1
      · exact Or.inl hq
      · exact Or.inr (hsat p.1 p.2 (by rw [hkk]) kw hkw hq)
    · exact congrArg (fun o => match o with | some d => d.relatedKeywords | none => []) 
        (kwStep_frame now m r p.1 p.2 (by rw [hkk]) k (fun e => he e.symm))

theorem kwFold_related_stable (now : String) :
    ∀ (rs : List StoreRecord) (m : List (String × KeywordData)),
      (∀ r ∈ rs, ∀ (q : String) (res : Json), kwKey r = some (q, res) →
        ∀ kw ∈ extractKeywords res, kw ≠ q → kw ∈ relatedOfM m q) →
      ∀ k, relatedOfM (rs.foldl (kwStep now) m) k = relatedOfM m k := by
  intro rs
  induction rs with
  | nil => intro m _ k; rfl
  | cons r t ih =>
    intro m hsat k
    simp only [List.foldl]
    have hstep : ∀ k', relatedOfM (kwStep now m r) k' = relatedOfM m k' :=
      kwStep_related_stable now m r (fun q res hq => hsat r (by simp) q res hq)
    rw [ih (kwStep now m r) ?_ k, hstep k]
    intro r' hr' q res hkey kw hkw hne
    rw [hstep q]
    exact hsat r' (by simp [hr']) q res hkey kw hkw hne

-- niche-pass popularity suite
theorem initStep_pop (now : String) (acc : List (String × NicheData)) (niche n : String) :
    popOfM (initNicheStep now acc niche) n = popOfM acc n := by
  rw [initNicheStep]
  by_cases h : (alookup niche acc).isSome
  · rw [if_pos h]
  · rw [if_neg h]
    by_cases he : niche = n
    · subst he
      rw [popOfM, alookup_aset_self]
      cases ha : alookup niche acc with
      | some d => rw [ha] at h; exact absurd rfl h
      | none => rw [popOfM, ha]
    · rw [popOfM, alookup_aset_ne niche n _ acc he, ← popOfM]

theorem initStep_pres (now : String) (acc : List (String × NicheData)) (niche k : String)
    (h : (alookup k acc).isSome) :
    (alookup k (initNicheStep now acc niche)).isSome := by
  rw [initNicheStep]
  by_cases hp : (alookup niche acc).isSome
  · rw [if_pos hp]; exact h
  · rw [if_neg hp]; exact alookup_isSome_aset niche k _ acc h

theorem initFold_pop (now : String) :
    ∀ (L : List String) (m : List (String × NicheData)) (n : String),
      popOfM (L.foldl (initNicheStep now) m) n = popOfM m n := by
  intro L
  induction L with
  | nil => intro m n; rfl
  | cons x t ih => intro m n; simp only [List.foldl]; rw [ih, initStep_pop]

theorem initFold_pres (now : String) :
    ∀ (L : List String) (m : List (String × NicheData)) (k : String),
      (alookup k m).isSome → (alookup k (L.foldl (initNicheStep now) m)).isSome := by
  intro L
  induction L with
  | nil => intro m k h; exact h
  | cons x t ih => intro m k h; exact ih _ k (initStep_pres now m x k h)

theorem initFold_mem (now : String) :
    ∀ (L : List String) (m : List (String × NicheData)) (n : String), n ∈ L →
      (alookup n (L.foldl (initNicheStep now) m)).isSome := by
  intro L
  induction L with
  | nil => intro _ _ h; exact absurd h (List.not_mem_nil _)
  | cons x t ih =>
    intro m n hmem
    rcases List.mem_cons.mp hmem with he | ht
    · subst he
      simp only [List.foldl]
      apply initFold_pres
      simp only [initNicheStep]
      by_cases hp : (alookup n m).isSome
      · rw [if_pos hp]; exact hp
      · rw [if_neg hp, alookup_aset_self]; rfl
    · simp only [List.foldl]
      exact ih _ n ht

theorem stepOne_nomatch (now q : String) (res : Json)
    (mc : List (String × NicheData) × Nat) (niche : String)
    (hm : matchesNiche niche q res = false) :
    stepNicheOne now q res mc niche = mc := by
  simp [stepNicheOne, hm]

theorem stepOne_frame (now q : String) (res : Json)
    (mc : List (String × NicheData) × Nat) (niche n : String) (hne : n ≠ niche) :
    popOfM (stepNicheOne now q res mc niche).1 n = popOfM mc.1 n := by
  rw [stepNicheOne]
  by_cases hm : matchesNiche niche q res
  · rw [if_pos hm]
    cases ha : alookup niche mc.1 with
    | some nd =>
      simp only
      rw [popOfM, alookup_aset_ne niche n _ mc.1 (fun e => hne e.symm), ← popOfM]
    | none => rfl
  · rw [if_neg hm]

theorem stepOne_incr (now q : String) (res : Json)
    (mc : List (String × NicheData) × Nat) (niche : String)
    (hm : matchesNiche niche q res = true) (hp : (alookup niche mc.1).isSome) :
    popOfM (stepNicheOne now q res mc niche).1 niche = popOfM mc.1 niche + 1 := by
  rw [stepNicheOne, if_pos hm]
  cases ha : alookup niche mc.1 with
  | some nd => simp only [popOfM, alookup_aset_self, ha]
  | none => rw [ha] at hp; exact Bool.noConfusion hp

theorem stepOne_pres (now q : String) (res : Json)
    (mc : List (String × NicheData) × Nat) (niche k : String)
    (h : (alookup k mc.1).isSome) :
    (alookup k (stepNicheOne now q res mc niche).1).isSome := by
  rw [stepNicheOne]
  by_cases hm : matchesNiche niche q res
  · rw [if_pos hm]
    cases ha : alookup niche mc.1 with
    | some nd => exact alookup_isSome_aset niche k _ mc.1 h
    | none => exact h
  · rw [if_neg hm]; exact h

theorem innerFold_pres (now q : String) (res : Json) :
    ∀ (L : List String) (mc : List (String × NicheData) × Nat) (k : String),
      (alookup k mc.1).isSome →
      (alookup k (L.foldl (stepNicheOne now q res) mc).1).isSome := by
  intro L
  induction L with
  | nil => intro mc k h; exact h
  | cons x t ih =>
    intro mc k h
    simp only [List.foldl]
    exact ih _ k (stepOne_pres now q res mc x k h)

theorem innerFold_pop (now q : String) (res : Json) :
    ∀ (L : List String) (mc : List (String × NicheData) × Nat) (n : String),
      L.Nodup → (∀ x ∈ L, (alookup x mc.1).isSome) →
      popOfM (L.foldl (stepNicheOne now q res) mc).1 n =
        popOfM mc.1 n + (if n ∈ L ∧ matchesNiche n q res = true then 1 else 0) := by
  intro L
  induction L with
  | nil => intro mc n _ _; simp
  | cons x t ih =>
    intro mc n hnd hready
    rw [List.nodup_cons] at hnd
    simp only [List.foldl]
    have hready' : ∀ y ∈ t, (alookup y (stepNicheOne now q res mc x).1).isSome :=
      fun y hy => stepOne_pres now q res mc x y (hready y (by simp [hy]))
    rw [ih (stepNicheOne now q res mc x) n hnd.2 hready']
    by_cases he : n = x
    · subst he
      have hnt : ¬(n ∈ t ∧ matchesNiche n q res = true) := fun hc => hnd.1 hc.1
      rw [if_neg hnt]
      cases hm : matchesNiche n q res with
      | true =>
        rw [stepOne_incr now q res mc n hm (hready n (by simp))]
        rw [if_pos ⟨by simp, rfl⟩]
      | false =>
        rw [stepOne_nomatch now q res mc n hm]
        rw [if_neg ?_]
        rintro ⟨_, hc⟩
        exact Bool.noConfusion hc
    · rw [stepOne_frame now q res mc x n he]
      congr 1
      by_cases hmem : n ∈ t ∧ matchesNiche n q res = true
      · rw [if_pos hmem, if_pos ⟨by simp [hmem.1], hmem.2⟩]
      · rw [if_neg hmem, if_neg ?_]
        rintro ⟨hin, hm⟩
        rcases List.mem_cons.mp hin with h1 | h1
        · exact he h1
        · exact hmem ⟨h1, hm⟩

theorem stepRec_pres (now : String) (mc : List (String × NicheData) × Nat)
    (r : StoreRecord) (k : String) (h : (alookup k mc.1).isSome) :
    (alookup k (stepNicheRec now mc r).1).isSome := by
  rw [stepNicheRec]
  cases hres : recResults r with
  | none => exact h
  | some res => exact innerFold_pres now (recQueryRaw r) res preferredNiches mc k h

theorem stepRec_pop (now : String) (mc : List (String × NicheData) × Nat)
    (r : StoreRecord) (n : String)
    (hready : ∀ x ∈ preferredNiches, (alookup x mc.1).isSome) :
    popOfM (stepNicheRec now mc r).1 n =
      popOfM mc.1 n +
        (if n ∈ preferredNiches ∧ nicheRecMatches n r = true then 1 else 0) := by
  rw [stepNicheRec]
  cases hres : recResults r with
  | none =>
    have hmatch : nicheRecMatches n r = false := by rw [nicheRecMatches, hres]
    simp [hmatch]
  | some res =>
    rw [innerFold_pop now (recQueryRaw r) res preferredNiches mc n (by decide) hready]
    congr 2
    rw [nicheRecMatches, hres]

theorem recFold_pres (now : String) :
    ∀ (rs : List StoreRecord) (mc : List (String × NicheData) × Nat) (k : String),
      (alookup k mc.1).isSome →
      (alookup k (rs.foldl (stepNicheRec now) mc).1).isSome := by
  intro rs
  induction rs with
  | nil => intro mc k h; exact h
  | cons r t ih =>
    intro mc k h
    simp only [List.foldl]
    exact ih _ k (stepRec_pres now mc r k h)

theorem recFold_pop (now : String) :
    ∀ (rs : List StoreRecord) (mc : List (String × NicheData) × Nat) (n : String),
      (∀ x ∈ preferredNiches, (alookup x mc.1).isSome) →
      popOfM (rs.foldl (stepNicheRec now) mc).1 n =
        popOfM mc.1 n + nicheMatchCount n rs := by
  intro rs
  induction rs with
  | nil => intro mc n _; simp [nicheMatchCount]
  | cons r t ih =>
    intro mc n hready
    simp only [List.foldl]
    have hready' : ∀ x ∈ preferredNiches, (alookup x (stepNicheRec now mc r).1).isSome :=
      fun x hx => stepRec_pres now mc r x (hready x hx)
    rw [ih (stepNicheRec now mc r) n hready', stepRec_pop now mc r n hready]
    simp only [nicheMatchCount]
    by_cases hp : n ∈ preferredNiches
    · rw [if_pos hp, if_pos hp]
      simp only [List.filter]
      cases hm : nicheRecMatches n r
      · rw [if_neg ?_]
        · simp
        · rintro ⟨_, hc⟩
          exact Bool.noConfusion hc
      · rw [if_pos ⟨hp, rfl⟩]
        simp only [List.length_cons]
        omega
    · rw [if_neg hp, if_neg hp, if_neg (fun hc => hp hc.1)]

theorem applyGrowth_pop (rand : String → ℚ) (m : List (String × NicheData)) (n : String) :
    popOfM (applyGrowth rand m) n = popOfM m n := by
  simp only [popOfM]
  rw [applyGrowth,
    alookup_map_snd n
      (fun k v => { v with
        growth := toFixed2 ((v.popularity : ℚ) * rand k - (v.popularity : ℚ)) }) m]
  cases alookup n m <;> rfl

theorem analyzeByNiche_pop (s : TrendData) (data : List StoreRecord) (now : String)
    (rand : String → ℚ) (n : String) :
    nichePopularity (analyzeByNiche s data now rand) n =
      nichePopularity s n + nicheMatchCount n data := by
  simp only [analyzeByNiche, nichePopularity]
  rw [applyGrowth_pop]
  rw [recFold_pop now data (initNiches now s.niches, s.nextId) n
    (fun x hx => initFold_mem now preferredNiches s.niches x hx)]
  rw [show (initNiches now s.niches, s.nextId).1 = initNiches now s.niches from rfl]
  rw [initNiches, initFold_pop]

-- product-pass suite
theorem prodUpd_sent (now src : String) (res : Json) (m : List (ProdKey × ProductData))
    (p : Product) (k : ProdKey) :
    psOfM (prodUpd now src res m p) k =
      if p.pid = k then calculateSentiment res else psOfM m k := by
  simp only [prodUpd]
  by_cases he : p.pid = k
  · subst he
    rw [if_pos rfl, psOfM, alookup_aset_self]
  · rw [if_neg he, psOfM, alookup_aset_ne p.pid k _ m he, ← psOfM]

theorem prodFold_sent (now src : String) (res : Json) :
    ∀ (prods : List Product) (m : List (ProdKey × ProductData)) (k : ProdKey),
      psOfM (prods.foldl (prodUpd now src res) m) k =
        if k ∈ prods.map (·.pid) then calculateSentiment res else psOfM m k := by
  intro prods
  induction prods with
  | nil => intro m k; simp
  | cons p t ih =>
    intro m k
    simp only [List.foldl, List.map, List.mem_cons]
    rw [ih]
    by_cases hm : k ∈ t.map (·.pid)
    · rw [if_pos hm, if_pos (Or.inr hm)]
    · rw [if_neg hm, prodUpd_sent]
      by_cases he : p.pid = k
      · rw [if_pos he, if_pos (Or.inl he.symm)]
      · rw [if_neg he, if_neg ?_]
        rintro (hc | hc)
        · exact he hc.symm
        · exact hm hc

theorem extractGo_mem (now : String) (pid : String) :
    ∀ (items : List Json) (ctr : Nat),
      (ProdKey.explicitId pid ∈ (extractProductsGo now items ctr).1.map (·.pid)) ↔
        hasExplicitProductGo pid items = true := by
  intro items
  induction items with
  | nil =>
    intro ctr
    simp [extractProductsGo, hasExplicitProductGo]
  | cons result t ih =>
    intro ctr
    rw [extractProductsGo, hasExplicitProductGo]
    by_cases ht : ((Json.getStrT result "title").isSome || (Json.getStrT result "name").isSome) = true
    · rw [if_pos ht, ht]
      simp only [Bool.true_and, Bool.or_eq_true, beq_iff_eq]
      cases hid : Json.getStrT result "id" with
      | some sid =>
        simp only [List.map, List.mem_cons, mkProduct]
        constructor
        · rintro (he | hmem)
          · have hps : pid = sid := by injection he
            subst hps
            exact Or.inl rfl
          · exact Or.inr ((ih ctr).mp (by simpa using hmem))
        · rintro (he | hrest)
          · have hps : sid = pid := by injection he
            subst hps
            exact Or.inl rfl
          · exact Or.inr (by simpa using (ih ctr).mpr hrest)
      | none =>
        simp only [List.map, List.mem_cons, mkProduct]
        constructor
        · rintro (he | hmem)
          · exact ProdKey.noConfusion he
          · exact Or.inr ((ih (ctr + 1)).mp (by simpa using hmem))
        · rintro (he | hrest)
          · exact Option.noConfusion he
          · exact Or.inr (by simpa using (ih (ctr + 1)).mpr hrest)
    · rw [if_neg ht]
      have ht' : ((Json.getStrT result "title").isSome || (Json.getStrT result "name").isSome) = false := by
        simpa using ht
      rw [ht']
      simp only [Bool.false_and, Bool.false_or]
      exact ih ctr

theorem extract_mem (now : String) (pid : String) (results : Json) (ctr : Nat) :
    (ProdKey.explicitId pid ∈ (extractProducts results ctr now).1.map (·.pid)) ↔
      hasExplicitProduct pid results = true := by
  cases results with
  | jarr items => exact extractGo_mem now pid items.toList ctr
  | jstr s => simp [extractProducts, hasExplicitProduct]
  | jnum q => simp [extractProducts, hasExplicitProduct]
  | jobj fields => simp [extractProducts, hasExplicitProduct]

theorem prodStep_sent (now : String) (mc : List (ProdKey × ProductData) × Nat)
    (r : StoreRecord) (pid : String) :
    psOfM (prodStep now mc r).1 (ProdKey.explicitId pid) =
      match prodHitRes pid r with
      | some res => calculateSentiment res
      | none => psOfM mc.1 (ProdKey.explicitId pid) := by
  rw [prodStep, prodHitRes]
  cases hres : recResults r with
  | none => rfl
  | some res =>
    simp only
    rw [prodFold_sent]
    by_cases hm : hasExplicitProduct pid res = true
    · rw [if_pos ((extract_mem now pid res mc.2).mpr hm), if_pos hm]
    · have hm' : hasExplicitProduct pid res = false := by simpa using hm
      rw [hm']
      simp only [Bool.false_eq_true, if_false]
      rw [if_neg (fun hc => hm ((extract_mem now pid res mc.2).mp hc))]

theorem prodFold_frame (now : String) (pid : String) :
    ∀ (rs : List StoreRecord) (mc : List (ProdKey × ProductData) × Nat),
      lastProdRes pid rs = none →
      psOfM (rs.foldl (prodStep now) mc).1 (ProdKey.explicitId pid) =
        psOfM mc.1 (ProdKey.explicitId pid) := by
  intro rs
  induction rs with
  | nil => intro mc _; rfl
  | cons r t ih =>
    intro mc hlast
    rw [lastProdRes, List.foldl, lastFold (prodHitRes pid) t] at hlast
    simp only [List.foldl]
    cases ht : t.foldl (fun a r => (prodHitRes pid r).or a) none with
    | some res => rw [ht] at hlast; exact absurd hlast (by simp [Option.or])
    | none =>
      rw [ht] at hlast
      have ht' : lastProdRes pid t = none := ht
      rw [ih (prodStep now mc r) ht', prodStep_sent]
      cases hh : prodHitRes pid r with
      | some res =>
        rw [hh] at hlast
        simp only [Option.or] at hlast
        exact Option.noConfusion hlast
      | none => rfl

theorem prodRecFold_sent (now : String) (pid : String) :
    ∀ (rs : List StoreRecord) (mc : List (ProdKey × ProductData) × Nat) (res : Json),
      lastProdRes pid rs = some res →
      psOfM (rs.foldl (prodStep now) mc).1 (ProdKey.explicitId pid) =
        calculateSentiment res := by
  intro rs
  induction rs with
  | nil => intro mc res h; exact absurd h (by simp [lastProdRes])
  | cons r t ih =>
    intro mc res hlast
    rw [lastProdRes, List.foldl, lastFold (prodHitRes pid) t] at hlast
    simp only [List.foldl]
    cases ht : t.foldl (fun a r => (prodHitRes pid r).or a) none with
    | some res' =>
      rw [ht] at hlast
      simp only [Option.or] at hlast
      have ht' : lastProdRes pid t = some res' := ht
      rw [ih (prodStep now mc r) res' ht']
      injection hlast with hres
      rw [hres]
    | none =>
      rw [ht] at hlast
      simp only [Option.or] at hlast
      have ht' : lastProdRes pid t = none := ht
      rw [prodFold_frame now pid t (prodStep now mc r) ht', prodStep_sent]
      cases hh : prodHitRes pid r with
      | some res0 =>
        rw [hh] at hlast
        injection hlast with hres
        rw [hres]
      | none =>
        rw [hh] at hlast
        exact Option.noConfusion hlast

theorem analyzeAllData_pop (s : TrendData) (records : List StoreRecord)
    (now : String) (rand : String → ℚ) (n : String) :
    nichePopularity ((analyzeAllData s records now rand).2) n =
      nichePopularity s n + nicheMatchCount n records := by
  cases records with
  | nil => simp [analyzeAllData, nicheMatchCount]
  | cons r t =>
    have hn : (analyzeAllData s (r :: t) now rand).2.niches =
        (analyzeByNiche s (r :: t) now rand).niches := rfl
    calc nichePopularity (analyzeAllData s (r :: t) now rand).2 n
        = nichePopularity (analyzeByNiche s (r :: t) now rand) n := by
          rw [nichePopularity, nichePopularity, hn]
      _ = nichePopularity s n + nicheMatchCount n (r :: t) :=
          analyzeByNiche_pop s (r :: t) now rand n

/-- C6: for every niche `n`, after any `analyzeAllData` pass
`popularity[n]` is at least 0 (it is a count), it never decreases, and
it grows by exactly the number of records of the snapshot matching the
niche — so over successive passes on a growing record set it is
monotonically non-decreasing. -/
theorem c6_popularity_nonneg_monotone (s : TrendData) (records : List StoreRecord) (now : String)
    (rand : String → ℚ) (n : String) :
    0 ≤ nichePopularity ((analyzeAllData s records now rand).2) n ∧
    nichePopularity s n ≤ nichePopularity ((analyzeAllData s records now rand).2) n ∧
    nichePopularity ((analyzeAllData s records now rand).2) n =
      nichePopularity s n + nicheMatchCount n records :=
  ⟨Nat.zero_le _, by rw [analyzeAllData_pop]; exact Nat.le_add_right _ _,
    analyzeAllData_pop s records now rand n⟩

/-- C1 amended: a second `analyzeAllData` over the unchanged snapshot
leaves every keyword's `sentiment` and `relatedKeywords` unchanged, but
increments each keyword's `mentions` by the number of records keyed to
it and each niche's `popularity` by its match count — the counters
accumulate rather than staying fixed. -/
theorem c1_second_pass_amended (s : TrendData) (records : List StoreRecord)
    (now now' : String) (rand rand' : String → ℚ) (k n : String) :
    kwSentiment (analyzeAllData (analyzeAllData s records now rand).2 records now' rand').2 k =
      kwSentiment (analyzeAllData s records now rand).2 k ∧
    kwRelated (analyzeAllData (analyzeAllData s records now rand).2 records now' rand').2 k =
      kwRelated (analyzeAllData s records now rand).2 k ∧
    kwMentions (analyzeAllData (analyzeAllData s records now rand).2 records now' rand').2 k =
      kwMentions (analyzeAllData s records now rand).2 k + kwHits k records ∧
    nichePopularity (analyzeAllData (analyzeAllData s records now rand).2 records now' rand').2 n =
      nichePopularity (analyzeAllData s records now rand).2 n + nicheMatchCount n records := by
  refine ⟨?_, ?_, ?_, analyzeAllData_pop _ records now' rand' n⟩
  · -- sentiment unchanged
    cases records with
    | nil => rfl
    | cons r t =>
      have hkw1 : (analyzeAllData s (r :: t) now rand).2.keywords =
          (r :: t).foldl (kwStep now) s.keywords := rfl
      have hkw2 : (analyzeAllData (analyzeAllData s (r :: t) now rand).2 (r :: t) now' rand').2.keywords =
          (r :: t).foldl (kwStep now') (analyzeAllData s (r :: t) now rand).2.keywords := rfl
      rw [kwSentiment, kwSentiment, hkw2]
      cases hl : lastKwRes k (r :: t) with
      | some res =>
        rw [kwFold_sentiment now' k (r :: t) _ res hl, hkw1,
          kwFold_sentiment now k (r :: t) s.keywords res hl]
      | none =>
        rw [sentimentOfM, kwFold_frame now' k (r :: t) _ hl, ← sentimentOfM]
  · -- relatedKeywords unchanged
    cases records with
    | nil => rfl
    | cons r t =>
      have hkw1 : (analyzeAllData s (r :: t) now rand).2.keywords =
          (r :: t).foldl (kwStep now) s.keywords := rfl
      have hkw2 : (analyzeAllData (analyzeAllData s (r :: t) now rand).2 (r :: t) now' rand').2.keywords =
          (r :: t).foldl (kwStep now') (analyzeAllData s (r :: t) now rand).2.keywords := rfl
      rw [kwRelated, kwRelated, hkw2]
      apply kwFold_related_stable
      intro r' hr' q res hkey kw hkw hne
      rw [hkw1]
      exact kwFold_related_invariant now (r :: t) s.keywords r' q res hr' hkey kw hkw hne
  · -- mentions accumulate
    cases records with
    | nil =>
      rw [show kwHits k ([] : List StoreRecord) = 0 from rfl]
      rfl
    | cons r t =>
      have hkw2 : (analyzeAllData (analyzeAllData s (r :: t) now rand).2 (r :: t) now' rand').2.keywords =
          (r :: t).foldl (kwStep now') (analyzeAllData s (r :: t) now rand).2.keywords := rfl
      rw [kwMentions, kwMentions, hkw2, kwFold_mentions]

/-- C10: after a by-keyword or by-product pass, the stored sentiment of
a keyword (resp. of a product with a source-supplied id) equals
`calculateSentiment` of the results payload of the *last* record
processed for it in iteration order — each record's assignment
overwrites the previous value instead of aggregating. -/
theorem c10_sentiment_overwrites (s : TrendData) (records : List StoreRecord) (now : String)
    (k pid : String) (res res' : Json)
    (h1 : lastKwRes k records = some res)
    (h2 : lastProdRes pid records = some res') :
    kwSentiment (analyzeByKeyword s records now) k = calculateSentiment res ∧
    prodSentiment (analyzeByProduct s records now) (ProdKey.explicitId pid) =
      calculateSentiment res' := by
  constructor
  · rw [kwSentiment,
      show (analyzeByKeyword s records now).keywords =
        records.foldl (kwStep now) s.keywords from rfl]
    exact kwFold_sentiment now k records s.keywords res h1
  · rw [prodSentiment,
      show (analyzeByProduct s records now).products =
        (records.foldl (prodStep now) (s.products, s.nextId)).1 from rfl]
    exact prodRecFold_sent now pid records (s.products, s.nextId) res' h2

/-- Witness for C10 at a one-record snapshot holding one product with
the explicit id `B1` under the query `q`. -/
theorem c10_sentiment_overwrites_witness :
    lastKwRes "q" [c10record] = some c10results ∧
    lastProdRes "B1" [c10record] = some c10results ∧
    kwSentiment (analyzeByKeyword initTrendData [c10record] "t0") "q" =
      calculateSentiment c10results ∧
    prodSentiment (analyzeByProduct initTrendData [c10record] "t0")
      (ProdKey.explicitId "B1") = calculateSentiment c10results := by
  have h := c10_sentiment_overwrites initTrendData [c10record] "t0" "q" "B1"
    c10results c10results rfl rfl
  exact ⟨rfl, rfl, h.1, h.2⟩

end Trend

end KacheAffiliate
